import Mathlib

/-!
Verification of the classification / extraction / naming core of the AI_OCR
repository (src/classify_rules.py, src/AI_OCR.py) against its natural-language
specification.  The Python functions are shallowly embedded: strings become
`List Char` (wrapped in `String` at the API), the regular expressions of the
source are embedded as values of an explicit `Re` syntax executed by a
backtracking matcher that follows Python `re` semantics (leftmost match,
greedy/lazy priority, non-overlapping global substitution), and the sole
pieces of ambient state of the source — the build-time clock and the
storage existence check — become explicit parameters.
-/

namespace AIOCR

/-- Characters treated as whitespace by Python `str.strip`/`str.isspace` and
by the regex class `\s` (the code points relevant to this code base). -/
def isPyWs (c : Char) : Bool :=
  c = ' ' || c = '\t' || c = '\n' || c = '\r' ||
  c.toNat = 0x0b || c.toNat = 0x0c ||
  c.toNat = 0x1c || c.toNat = 0x1d || c.toNat = 0x1e || c.toNat = 0x1f ||
  c.toNat = 0x85 || c.toNat = 0xa0 || c.toNat = 0x1680 ||
  (0x2000 ≤ c.toNat && c.toNat ≤ 0x200a) ||
  c.toNat = 0x2028 || c.toNat = 0x2029 || c.toNat = 0x202f ||
  c.toNat = 0x205f || c.toNat = 0x3000

/-- Python `\w` (word character) restricted to the scripts this code base
touches: ASCII alphanumerics, underscore, kana, CJK ideographs. -/
def isWordChar (c : Char) : Bool :=
  c.isAlphanum || c = '_' ||
  (0x3005 ≤ c.toNat && c.toNat ≤ 0x3007) ||
  (0x3041 ≤ c.toNat && c.toNat ≤ 0x30ff) ||
  (0x3400 ≤ c.toNat && c.toNat ≤ 0x9fff)

/-- ASCII lower-casing (Python `re.IGNORECASE` on the ASCII letters that occur
in the source patterns). -/
def lowerA (c : Char) : Char :=
  if 'A' ≤ c && c ≤ 'Z' then Char.ofNat (c.toNat + 32) else c

/-- ASCII upper-casing. -/
def upperA (c : Char) : Char :=
  if 'a' ≤ c && c ≤ 'z' then Char.ofNat (c.toNat - 32) else c

/-- One item of a regex character class. -/
inductive CItem where
  | single (c : Char)
  | range (lo hi : Char)
  | ws
  | digit
  deriving Repr, DecidableEq

/-- Membership of a character in one class item. -/
def citemMem (c : Char) : CItem → Bool
  | .single a => c = a
  | .range lo hi => lo.toNat ≤ c.toNat && c.toNat ≤ hi.toNat
  | .ws => isPyWs c
  | .digit => c.isDigit

/-- A regex character class: a list of items, possibly negated. -/
structure CCls where
  neg : Bool
  items : List CItem
  deriving Repr, DecidableEq

/-- Raw membership of a character in a class. -/
def CCls.mem (cc : CCls) (c : Char) : Bool :=
  let b := cc.items.any (citemMem c)
  if cc.neg then !b else b

/-- Class membership under an optional ignore-case flag. -/
def clsMem (ic : Bool) (cc : CCls) (c : Char) : Bool :=
  cc.mem c || (ic && (cc.mem (lowerA c) || cc.mem (upperA c)))

/-- Character equality under an optional ignore-case flag. -/
def chEq (ic : Bool) (a b : Char) : Bool :=
  a = b || (ic && lowerA a = lowerA b)

/-- Abstract syntax of the regular expressions used by the source:
literals, classes, concatenation, prioritized alternation, counted
greedy/lazy repetition, capturing groups, word boundary, and the
end anchor (Python `$`: end of string or before a final newline). -/
inductive Re where
  | eps
  | lit (s : List Char)
  | cls (cc : CCls)
  | cat (a b : Re)
  | alt (a b : Re)
  | rep (lo : Nat) (hi : Option Nat) (lazyQ : Bool) (r : Re)
  | grp (i : Nat) (r : Re)
  | bnd
  | eos
  deriving Repr

/-- Captured groups of a match: index paired with captured characters,
most recent assignment first. -/
abbrev Groups := List (Nat × List Char)

/-- Characters captured by group `i` (empty when unset). -/
def groupGet (g : Groups) (i : Nat) : List Char :=
  ((g.find? (fun p => p.1 == i)).map Prod.snd).getD []

/-- Consume a literal, tracking the previously consumed character. -/
def dropLit (ic : Bool) : List Char → Option Char → List Char →
    Option (Option Char × List Char)
  | [], prev, s => some (prev, s)
  | p :: ps, _, c :: rest =>
      if chEq ic p c then dropLit ic ps (some c) rest else none
  | _ :: _, _, [] => none

/-- Backtracking matcher in continuation-passing style, following Python
`re` priority: alternation tries the left branch first, greedy repetition
tries the longer expansion first, lazy repetition the shorter.  `prev` is
the character before the current position (for `\b`).  `fuel` bounds the
recursion depth; every caller supplies fuel exceeding the depth any of the
embedded patterns can reach, so exhaustion never occurs on the inputs
evaluated here. -/
def matchRe (ic : Bool) : Nat → Re → Groups → Option Char → List Char →
    (Groups → Option Char → List Char → Option (Groups × Option Char × List Char)) →
    Option (Groups × Option Char × List Char)
  | 0, _, _, _, _, _ => none
  | _+1, .eps, g, prev, s, k => k g prev s
  | _+1, .lit cs, g, prev, s, k =>
      match dropLit ic cs prev s with
      | some (p2, rest) => k g p2 rest
      | none => none
  | _+1, .cls cc, g, _, s, k =>
      match s with
      | [] => none
      | c :: rest => if clsMem ic cc c then k g (some c) rest else none
  | f+1, .cat a b, g, prev, s, k =>
      matchRe ic f a g prev s (fun g2 p2 s2 => matchRe ic f b g2 p2 s2 k)
  | f+1, .alt a b, g, prev, s, k =>
      match matchRe ic f a g prev s k with
      | some r => some r
      | none => matchRe ic f b g prev s k
  | f+1, .rep lo hi lz r, g, prev, s, k =>
      match lo with
      | lo2+1 =>
          matchRe ic f r g prev s (fun g2 p2 s2 =>
            matchRe ic f (.rep lo2 (hi.map (fun n => n - 1)) lz r) g2 p2 s2 k)
      | 0 =>
          if hi = some 0 then k g prev s
          else if lz then
            match k g prev s with
            | some res => some res
            | none =>
                matchRe ic f r g prev s (fun g2 p2 s2 =>
                  if s2.length < s.length then
                    matchRe ic f (.rep 0 (hi.map (fun n => n - 1)) lz r) g2 p2 s2 k
                  else none)
          else
            match matchRe ic f r g prev s (fun g2 p2 s2 =>
                if s2.length < s.length then
                  matchRe ic f (.rep 0 (hi.map (fun n => n - 1)) lz r) g2 p2 s2 k
                else none) with
            | some res => some res
            | none => k g prev s
  | f+1, .grp i r, g, prev, s, k =>
      matchRe ic f r g prev s (fun g2 p2 s2 =>
        k ((i, s.take (s.length - s2.length)) :: g2) p2 s2)
  | _+1, .bnd, g, prev, s, k =>
      let l := match prev with | some c => isWordChar c | none => false
      let rt := match s with | c :: _ => isWordChar c | [] => false
      if l != rt then k g prev s else none
  | _+1, .eos, g, prev, s, k =>
      match s with
      | [] => k g prev s
      | ['\n'] => k g prev s
      | _ => none

/-- Attempt a match anchored at the current position; on success returns the
final groups, the last consumed character, and the remaining input. -/
def matchAt (ic : Bool) (re : Re) (prev : Option Char) (s : List Char) :
    Option (Groups × Option Char × List Char) :=
  matchRe ic (4 * s.length + 400) re [] prev s (fun g p rest => some (g, p, rest))

/-- A resolved match: start offset, matched length, captured groups. -/
structure MRes where
  start : Nat
  len : Nat
  groups : Groups
  deriving Repr

/-- End offset of a match. -/
def MRes.stop (m : MRes) : Nat := m.start + m.len

/-- The matched text (`group(0)`) relative to the searched string. -/
def MRes.matched (m : MRes) (s : List Char) : List Char :=
  (s.drop m.start).take m.len

/-- Leftmost-match search from a given offset (Python `re.search`). -/
def searchAux (ic : Bool) (re : Re) : Option Char → Nat → List Char → Option MRes
  | prev, i, s =>
    match matchAt ic re prev s with
    | some (g, _, rest) => some ⟨i, s.length - rest.length, g⟩
    | none =>
      match s with
      | [] => none
      | c :: tail => searchAux ic re (some c) (i+1) tail

/-- Python `re.search`. -/
def reSearch (ic : Bool) (re : Re) (s : List Char) : Option MRes :=
  searchAux ic re none 0 s

/-- Python `re.match` (anchored at the start, not at the end). -/
def reMatchStart (ic : Bool) (re : Re) (s : List Char) : Option MRes :=
  (matchAt ic re none s).map (fun r => ⟨0, s.length - r.2.2.length, r.1⟩)

/-- Count of non-overlapping leftmost matches (`len(re.findall(...))`).
Fueled by the input length: every iteration consumes at least one character. -/
def findCountAux (ic : Bool) (re : Re) : Nat → Option Char → List Char → Nat
  | 0, _, _ => 0
  | f+1, prev, s =>
    match matchAt ic re prev s with
    | some (_, p2, rest) =>
        if rest.length < s.length then 1 + findCountAux ic re f p2 rest
        else match s with
          | [] => 1
          | c :: tail => 1 + findCountAux ic re f (some c) tail
    | none =>
      match s with
      | [] => 0
      | c :: tail => findCountAux ic re f (some c) tail

/-- Python `len(re.findall(pat, s))`. -/
def findCount (ic : Bool) (re : Re) (s : List Char) : Nat :=
  findCountAux ic re (s.length + 1) none s

/-- All non-overlapping leftmost matches (`re.finditer`). -/
def findIterAux (ic : Bool) (re : Re) : Nat → Nat → Option Char → List Char → List MRes
  | 0, _, _, _ => []
  | f+1, i, prev, s =>
    match matchAt ic re prev s with
    | some (g, p2, rest) =>
        let len := s.length - rest.length
        if len > 0 then ⟨i, len, g⟩ :: findIterAux ic re f (i+len) p2 rest
        else match s with
          | [] => [⟨i, 0, g⟩]
          | c :: tail => ⟨i, 0, g⟩ :: findIterAux ic re f (i+1) (some c) tail
    | none => match s with
      | [] => []
      | c :: tail => findIterAux ic re f (i+1) (some c) tail

/-- Python `list(re.finditer(pat, s))`. -/
def findIter (ic : Bool) (re : Re) (s : List Char) : List MRes :=
  findIterAux ic re (s.length + 1) 0 none s

/-- A substitution template: literal pieces and group back-references. -/
abbrev Tmpl := List (Sum (List Char) Nat)

/-- Render a substitution template against the groups of a match. -/
def renderTmpl (t : Tmpl) (g : Groups) : List Char :=
  t.foldr (fun item acc =>
    (match item with | .inl cs => cs | .inr i => groupGet g i) ++ acc) []

/-- Global regex substitution (Python `re.sub`), non-overlapping, left to
right. -/
def subAux (ic : Bool) (re : Re) (tp : Tmpl) : Nat → Option Char → List Char → List Char
  | 0, _, s => s
  | f+1, prev, s =>
    match matchAt ic re prev s with
    | some (g, p2, rest) =>
      if rest.length < s.length then renderTmpl tp g ++ subAux ic re tp f p2 rest
      else match s with
        | [] => renderTmpl tp g
        | c :: tail => renderTmpl tp g ++ c :: subAux ic re tp f (some c) tail
    | none => match s with
      | [] => []
      | c :: tail => c :: subAux ic re tp f (some c) tail

/-- Python `re.sub(pat, repl, s)`. -/
def reSub (ic : Bool) (re : Re) (tp : Tmpl) (s : List Char) : List Char :=
  subAux ic re tp (s.length + 1) none s

/-- The text before the leftmost match (`re.split(pat, s)[0]`). -/
def splitFirst (re : Re) (s : List Char) : List Char :=
  match reSearch false re s with
  | some m => s.take m.start
  | none => s

/-! ### Regex construction helpers -/

/-- Literal regex from a string. -/
def rLit (s : String) : Re := .lit s.data

/-- Prioritized alternation of a list (left first, as Python `a|b|c`). -/
def rAlts : List Re → Re
  | [] => .cls ⟨false, []⟩
  | [r] => r
  | r :: rs => .alt r (rAlts rs)

/-- Concatenation of a list of regexes. -/
def rSeq (l : List Re) : Re := l.foldr .cat .eps

/-- Positive character class. -/
def rCls (items : List CItem) : Re := .cls ⟨false, items⟩

/-- Negated character class. -/
def rNCls (items : List CItem) : Re := .cls ⟨true, items⟩

/-- Greedy `?`. -/
def rOpt (r : Re) : Re := .rep 0 (some 1) false r

/-- Greedy `*`. -/
def rStar (r : Re) : Re := .rep 0 none false r

/-- Greedy `+`. -/
def rPlus (r : Re) : Re := .rep 1 none false r

/-- `\s*` -/
def wsStar : Re := rStar (rCls [.ws])

/-- `[:：]?` — the optional label colon. -/
def colonOpt : Re := rOpt (rCls [.single ':', .single '：'])

/-- A word split by OCR: the characters of `w` with `\s*` between each pair
(e.g. the source pattern `患\s*者`). -/
def brokenRe : List Char → Re
  | [] => .eps
  | [c] => .lit [c]
  | c :: rest => .cat (.lit [c]) (.cat wsStar (brokenRe rest))

/-! ### Python string primitives -/

/-- `str.strip(chars)`. -/
def stripChars (bad : List Char) (s : List Char) : List Char :=
  ((s.dropWhile (bad.contains ·)).reverse.dropWhile (bad.contains ·)).reverse

/-- `str.strip()` (whitespace). -/
def stripWs (s : List Char) : List Char :=
  ((s.dropWhile isPyWs).reverse.dropWhile isPyWs).reverse

/-- `str.rstrip(chars)`. -/
def rstripChars (bad : List Char) (s : List Char) : List Char :=
  (s.reverse.dropWhile (bad.contains ·)).reverse

/-- `str.rstrip()` (whitespace). -/
def rstripWs (s : List Char) : List Char :=
  (s.reverse.dropWhile isPyWs).reverse

/-- `str.replace(pat, repl)` for non-empty `pat`: non-overlapping, left to
right.  Fueled by the input length (each step consumes at least one
character). -/
def replaceAllAux (pat repl : List Char) : Nat → List Char → List Char
  | 0, s => s
  | _+1, [] => []
  | f+1, c :: rest =>
      if pat.isPrefixOf (c :: rest) then
        repl ++ replaceAllAux pat repl f ((c :: rest).drop pat.length)
      else c :: replaceAllAux pat repl f rest

/-- `str.replace(pat, repl)`. -/
def replaceAll (pat repl s : List Char) : List Char :=
  replaceAllAux pat repl (s.length + 1) s

/-- Embedding of `unicodedata.normalize("NFKC", ·)` restricted to the
character repertoire this development evaluates on: fullwidth ASCII forms
(U+FF01–U+FF5E) fold to ASCII and the ideographic space folds to a plain
space; ASCII, kana, and CJK ideographs — on which real NFKC is also the
identity — are left unchanged.  Characters with multi-character
compatibility decompositions (halfwidth kana, circled forms, …) do not
occur in any input considered here. -/
def nfkcChar (c : Char) : Char :=
  if 0xff01 ≤ c.toNat && c.toNat ≤ 0xff5e then Char.ofNat (c.toNat - 0xfee0)
  else if c.toNat = 0x3000 then ' '
  else c

/-- NFKC over a string (character-wise, see `nfkcChar`). -/
def nfkc (s : List Char) : List Char := s.map nfkcChar

/-! ### classify_rules.py — label repair and normalization -/

/-- `LABEL_STOP_RE`: the alternation of the `LABEL_STOPS` patterns, in
source order. -/
def LABEL_STOP_RE : Re := rAlts [
  brokenRe "生年月日".data,
  rLit "生年月日", rLit "性別", rLit "住所", rLit "有効期限",
  rLit "保険者番号", rLit "被保険者番号", rLit "記号", rLit "番号",
  rLit "電話", rLit "TEL", rLit "FAX",
  rLit "保険医氏名", rLit "医師氏名", rLit "医師名", rLit "担当医",
  rLit "病院名", rLit "クリニック", rLit "医院", rLit "病院",
  rLit "施術者", rLit "担当者"]

/-- `_strip_after_labels`: drop everything from the first label word on,
then strip the listed separator characters from both ends. -/
def _strip_after_labels (s : List Char) : List Char :=
  stripChars " 　:：.-_/|,、。".data (splitFirst LABEL_STOP_RE s)

/-- `_clean_name_token`: strip a trailing honorific, then a trailing label
fragment, then surrounding whitespace. -/
def _clean_name_token (tok : List Char) : List Char :=
  let t1 := reSub false
    (.cat (.grp 1 (rAlts [rLit "様", rLit "さま", rLit "殿", rLit "さん"])) .eos) [] tok
  let t2 := reSub false
    (.cat (.grp 1 (rAlts [rLit "生年月日", rLit "性別", rLit "住所",
      rLit "有効期限", rLit "記号", rLit "番号"])) .eos) [] t1
  stripWs t2

/-- `normalize_text` on character lists: NFKC, whitespace collapapse, OCR
label-split repair, honorific-label canonicalization — the exact pass
sequence of the source. -/
def normalize_text_list (t : List Char) : List Char :=
  if t = [] then []
  else
    let t := nfkc t
    let t := replaceAll "　".data " ".data t
    let t := reSub false (rPlus (rCls [.single ' ', .single '\t'])) [.inl " ".data] t
    let t := reSub false (brokenRe "患者".data) [.inl "患者".data] t
    let t := reSub false (brokenRe "被保険者".data) [.inl "被保険者".data] t
    let t := reSub false (brokenRe "保険医".data) [.inl "保険医".data] t
    let t := reSub false (brokenRe "医師".data) [.inl "医師".data] t
    let t := reSub false (brokenRe "住所".data) [.inl "住所".data] t
    let t := reSub false
      (rSeq [.grp 1 (rAlts [rLit "患者", rLit "被保険者", rLit "保険医", rLit "医師"]),
        wsStar, rLit "氏", wsStar, rOpt (.cat (rLit "所") wsStar), rLit "名"])
      [.inr 1, .inl "氏名".data] t
    let t := reSub false
      (rSeq [rLit "氏", wsStar, rOpt (.cat (rLit "所") wsStar), rLit "名"])
      [.inl "氏名".data] t
    let t := reSub false (brokenRe "鍼灸院".data) [.inl "鍼灸院".data] t
    let t := reSub false (brokenRe "針灸院".data) [.inl "針灸院".data] t
    let t := reSub false (brokenRe "整骨院".data) [.inl "整骨院".data] t
    let t := reSub false (brokenRe "接骨院".data) [.inl "接骨院".data] t
    let t := reSub false (brokenRe "クリニック".data) [.inl "クリニック".data] t
    let t := reSub false (brokenRe "訪問マッサージ".data) [.inl "訪問マッサージ".data] t
    let t := reSub false (brokenRe "相談支援事業所".data) [.inl "相談支援事業所".data] t
    let t := reSub false (brokenRe "計画作成担当者".data) [.inl "計画作成担当者".data] t
    let t := reSub false (brokenRe "申請者の現状".data) [.inl "申請者の現状".data] t
    let t := reSub false (brokenRe "基本情報".data) [.inl "基本情報".data] t
    let t := reSub false (brokenRe "送付状".data) [.inl "送付状".data] t
    let t := replaceAll "樣".data "様".data t
    let t := replaceAll "患者様氏名".data "患者氏名".data t
    let t := replaceAll "患者様名".data "患者名".data t
    let t := reSub false (rSeq [.grp 1 (rLit "スタッフ"), wsStar, rLit "名"]) [.inr 1] t
    let t := reSub false
      (rSeq [.grp 1 (rAlts [rLit "治療院", rLit "施術所", rLit "事業所",
        rLit "クリニック", rLit "医院", rLit "病院"]), wsStar, rLit "名"])
      [.inr 1, .inl "名".data] t
    t

/-- `normalize_text` at the string API. -/
def normalize_text (t : String) : String :=
  (normalize_text_list t.data).asString

/-! ### classify_rules.py — full-name recognition and validation -/

/-- The `NAME_TOKEN` character class
`[ぁ-んァ-ンー一-龥々〆ヵヶA-Za-z]`. -/
def nameTokC : CCls :=
  ⟨false, [.range 'ぁ' 'ん', .range 'ァ' 'ン', .single 'ー', .range '一' '龥',
           .single '々', .single '〆', .single 'ヵ', .single 'ヶ',
           .range 'A' 'Z', .range 'a' 'z']⟩

/-- `NAME_TOKEN`: one to fifteen name characters. -/
def NAME_TOKEN : Re := .rep 1 (some 15) false (.cls nameTokC)

/-- `FULLNAME_SEP`: two name tokens separated by whitespace or middle dots,
each captured. -/
def FULLNAME_SEP : Re :=
  rSeq [.grp 1 NAME_TOKEN,
        rPlus (rCls [.ws, .single '･', .single '・']),
        .grp 2 NAME_TOKEN]

/-- `FULLNAME_CONTIG`: two adjacent captured name tokens. -/
def FULLNAME_CONTIG : Re := rSeq [.grp 1 NAME_TOKEN, .grp 2 NAME_TOKEN]

/-- `_join_fullname`: clean both tokens, concatenate, cut at label words,
drop a trailing digit/dash/slash/dot run, strip. -/
def _join_fullname (g1 g2 : List Char) : List Char :=
  let a := _clean_name_token g1
  let b := _clean_name_token g2
  let s := a ++ b
  let s := _strip_after_labels s
  let s := reSub false
    (.cat (rPlus (rCls [.digit, .single '-', .single '/', .single '.'])) .eos) [] s
  stripWs s

/-- `BAD_ANY_TOKEN`: institution / location words that disqualify a name
token when they occur anywhere inside it. -/
def BAD_ANY_TOKEN : Re := .grp 1 (rAlts [
  rLit "クリニック", rLit "病院", rLit "医院", rLit "医療法人", rLit "治療院",
  rLit "薬局", rLit "センター", rLit "大学", rLit "財団", rLit "協会",
  rLit "組合", rLit "科", rLit "御中", rLit "貴院", rLit "貴社",
  rLit "市", rLit "区", rLit "町", rLit "村", rLit "丁目", rLit "番地",
  rLit "荘", rLit "マンション", rLit "アパート", rLit "ビル"])

/-- `BAD_PATIENT_EXACT`: label words excluded exactly for the patient role. -/
def BAD_PATIENT_EXACT : List (List Char) :=
  ["生年月日".data, "住所".data, "電話番号".data, "電話".data, "郵便番号".data,
   "患者".data, "氏名".data, "保険者番号".data, "記号".data, "番号".data]

/-- `BAD_ANY_EXACT`: label words excluded exactly for every role. -/
def BAD_ANY_EXACT : List (List Char) :=
  ["氏名".data, "患者".data, "医師".data, "保険医".data]

/-- The effective `_is_valid_person_tokens` — the second definition in the
source file (lines 113–130), which in Python shadows the first.  Its
length test is a no-op (`pass`), so no length-based rejection occurs. -/
def _is_valid_person_tokens (g1 g2 : List Char) (role : String) : Bool :=
  if (reSearch false (rCls [.digit]) g1).isSome
     || (reSearch false (rCls [.digit]) g2).isSome then false
  else if (reSearch false BAD_ANY_TOKEN g1).isSome
     || (reSearch false BAD_ANY_TOKEN g2).isSome then false
  else if BAD_ANY_EXACT.contains g1 || BAD_ANY_EXACT.contains g2 then false
  else if role = "patient"
     && (BAD_PATIENT_EXACT.contains g1 || BAD_PATIENT_EXACT.contains g2) then false
  else true

/-- The shadowed first definition of `_is_valid_person_tokens` (source lines
95–107), never executed by Python: identical to the effective one except
that it also rejects a pair in which both tokens are exactly one character
long. -/
def _is_valid_person_tokens_v1 (g1 g2 : List Char) (role : String) : Bool :=
  if (reSearch false (rCls [.digit]) g1).isSome
     || (reSearch false (rCls [.digit]) g2).isSome then false
  else if (reSearch false BAD_ANY_TOKEN g1).isSome
     || (reSearch false BAD_ANY_TOKEN g2).isSome then false
  else if BAD_ANY_EXACT.contains g1 || BAD_ANY_EXACT.contains g2 then false
  else if role = "patient"
     && (BAD_PATIENT_EXACT.contains g1 || BAD_PATIENT_EXACT.contains g2) then false
  else if g1.length = 1 && g2.length = 1 then false
  else true

/-- `ADDRESS_TOKENS`: address indicator words. -/
def ADDRESS_TOKENS : Re := .grp 1 (rAlts [
  rLit "都", rLit "道", rLit "府", rLit "県", rLit "市", rLit "区", rLit "町",
  rLit "村", rLit "丁目", rLit "番地", rLit "番", rLit "号", rLit "郡",
  rLit "荘", rLit "マンション", rLit "アパート", rLit "ビル"])

/-- `_looks_addressy`. -/
def _looks_addressy (s : List Char) : Bool :=
  (reSearch false ADDRESS_TOKENS s).isSome

/-! ### classify_rules.py — category keyword table -/

/-- `KEYWORDS`: the per-category pattern table, in source (insertion)
order.  Every pattern is embedded exactly; none carries a weight, an
anchor flag, or a negative-hint penalty — the source has none. -/
def KEYWORDS : List (String × List Re) := [
  ("同意書", [rLit "同意書", rLit "同意", rLit "承諾", rLit "署名",
    rLit "サイン", rLit "Consent"]),
  ("保険証", [rLit "健康保険証",
    rSeq [.bnd, rLit "保険証", .bnd],
    rLit "保険者番号",
    rSeq [rLit "記号", rStar (rCls [.single '・', .ws]), rLit "番号"],
    rSeq [rLit "記号", wsStar, colonOpt, wsStar, rPlus (rNCls [.ws])],
    rSeq [rLit "番号", wsStar, colonOpt, wsStar, rPlus (rNCls [.ws])],
    rLit "有効期限", rLit "交付日", rLit "発行者", rLit "保険者名"]),
  ("治療報告書", [rLit "治療報告書", rLit "施術報告書", rLit "経過報告",
    rLit "報告対象年月", rLit "所感", rLit "目標",
    rAlts [rLit "現状維持", rLit "現在の状態", rLit "当初からの状態の変化"],
    rLit "初療日",
    rAlts [rLit "往診日", rLit "訪問日", rLit "振替訪問日", rLit "休診日"],
    rAlts [rLit "マッサージ", rLit "施術", rLit "重点部位"],
    rAlts [rLit "疼痛", rLit "ROM", rLit "機能評価", rLit "再評価",
      rLit "治療計画", rLit "施術計画"]]),
  ("患者リスト", [rLit "患者リスト", rLit "患者一覧",
    rSeq [rLit "Patient", wsStar, rLit "List"],
    rLit "患者台帳", rLit "フェイスシート", rLit "利用者情報", rLit "ご利用者様",
    rLit "介護状況", rLit "入居者情報", rLit "要介護", rLit "認定日",
    rLit "電話番号", rLit "住所", rLit "生年月日",
    rLit "リハビリテーション総合実施計画書", rLit "受入依頼票"]),
  ("請求書", [rSeq [.bnd, rLit "請求書", .bnd],
    rSeq [.bnd, rLit "INVOICE", .bnd],
    rLit "請求日", rLit "請求書番号",
    rAlts [rLit "請求金額", rLit "ご請求金額"],
    rAlts [rLit "振込先", rLit "お振込"],
    rAlts [rLit "銀行", rLit "支店", rLit "口座番号"],
    rLit "件名", rLit "内訳", rLit "数量", rLit "単価", rLit "消費税",
    rLit "合計",
    rAlts [rLit "合計金額", rLit "ご請求合計"]]),
  ("実績", [rLit "療養費支給申請書",
    rAlts [rLit "あんま", rLit "マッサージ"],
    rLit "施術内訳",
    rAlts [rLit "施術日", rLit "施術年月日"],
    rLit "往療", rLit "通院",
    rAlts [rLit "施術回数", rLit "回数"],
    rLit "単価",
    rAlts [rLit "小計", rLit "合計", rLit "総計", rLit "総費用"],
    rAlts [rLit "施術者", rLit "施術管理者"],
    rLit "審査", rLit "公費負担", rLit "受給者番号", rLit "摘要"])]

/-! ### classify_rules.py — date extraction -/

/-- Separator class `[./年-]` of the first date pattern. -/
def dateSep1 (c : Char) : Bool := c = '.' || c = '/' || c = '年' || c = '-'

/-- Separator class `[./月-]` of the first date pattern. -/
def dateSep2 (c : Char) : Bool := c = '.' || c = '/' || c = '月' || c = '-'

/-- Numeric value of a digit character. -/
def dVal (c : Char) : Nat := c.toNat - 48

/-- `(\d{1,2})` immediately followed by a one-character separator, with
Python's greedy backtracking resolved: two digits are taken when the
character after them is a separator, else one digit when the next
character is a separator, else the match fails.  Returns the value and
the text after the separator. -/
def parseMD (sep : Char → Bool) : List Char → Option (Nat × List Char)
  | a :: b :: c :: rest =>
      if a.isDigit && b.isDigit && sep c then some (10 * dVal a + dVal b, rest)
      else if a.isDigit && sep b then some (dVal a, c :: rest)
      else none
  | [a, b] =>
      if a.isDigit && sep b then some (dVal a, [])
      else none
  | _ => none

/-- Trailing `(\d{1,2})日?` of a date pattern: greedy one or two digits;
the optional day marker cannot fail and nothing follows it. -/
def parseDay : List Char → Option Nat
  | a :: b :: _ =>
      if a.isDigit && b.isDigit then some (10 * dVal a + dVal b)
      else if a.isDigit then some (dVal a)
      else none
  | [a] => if a.isDigit then some (dVal a) else none
  | _ => none

/-- The first date pattern `(20\d{2})[./年-](\d{1,2})[./月-](\d{1,2})日?`
anchored at the current position; returns year, month, day values. -/
def p1At : List Char → Option (Nat × Nat × Nat)
  | c1 :: c2 :: a :: b :: c :: rest2 =>
      if c1 = '2' && c2 = '0' && a.isDigit && b.isDigit && dateSep1 c then
        (parseMD dateSep2 rest2).bind (fun mr =>
          (parseDay mr.2).map (fun d => (2000 + 10 * dVal a + dVal b, mr.1, d)))
      else none
  | _ => none

/-- The second date pattern `(20\d{2})-(\d{1,2})-(\d{1,2})` anchored at the
current position. -/
def p2At : List Char → Option (Nat × Nat × Nat)
  | c1 :: c2 :: a :: b :: c :: rest2 =>
      if c1 = '2' && c2 = '0' && a.isDigit && b.isDigit && c = '-' then
        (parseMD (fun x => x = '-') rest2).bind (fun mr =>
          (parseDay mr.2).map (fun d => (2000 + 10 * dVal a + dVal b, mr.1, d)))
      else none
  | _ => none

/-- The third date pattern `(20\d{2})/(\d{1,2})/(\d{1,2})` anchored at the
current position. -/
def p3At : List Char → Option (Nat × Nat × Nat)
  | c1 :: c2 :: a :: b :: c :: rest2 =>
      if c1 = '2' && c2 = '0' && a.isDigit && b.isDigit && c = '/' then
        (parseMD (fun x => x = '/') rest2).bind (fun mr =>
          (parseDay mr.2).map (fun d => (2000 + 10 * dVal a + dVal b, mr.1, d)))
      else none
  | _ => none

/-- `\s*` as a deterministic skip (the token that follows in each pattern
is never a whitespace character). -/
def skipWs (s : List Char) : List Char := s.dropWhile isPyWs

/-- `(\d{1,2})\s*X` for a stop character `X` (`年` or `月`), greedy
backtracking resolved as in `parseMD`; returns the value and the text
after the stop character. -/
def parseNum2Then (stop : Char) : List Char → Option (Nat × List Char)
  | a :: b :: rest2 =>
      if a.isDigit then
        if b.isDigit then
          match skipWs rest2 with
          | c :: rest3 =>
              if c = stop then some (10 * dVal a + dVal b, rest3) else none
          | [] => none
        else
          match skipWs (b :: rest2) with
          | c :: rest3 => if c = stop then some (dVal a, rest3) else none
          | [] => none
      else none
  | _ => none

/-- The era date pattern
`令和\s*(\d{1,2})\s*年\s*(\d{1,2})\s*月\s*(\d{1,2})\s*日?` anchored at the
current position.  The year is already converted as in the source:
`2018 + n` for Reiwa year `n`. -/
def p4At : List Char → Option (Nat × Nat × Nat)
  | c1 :: c2 :: rest =>
      if c1 = '令' && c2 = '和' then
        (parseNum2Then '年' (skipWs rest)).bind (fun nr =>
          (parseNum2Then '月' (skipWs nr.2)).bind (fun mr =>
            (parseDay (skipWs mr.2)).map (fun d => (2018 + nr.1, mr.1, d))))
      else none
  | _ => none

/-- Leftmost search for a date pattern: try the anchored parser at each
position, left to right. -/
def searchDP (pAt : List Char → Option (Nat × Nat × Nat)) :
    List Char → Option (Nat × Nat × Nat)
  | [] => none
  | c :: tail =>
      match pAt (c :: tail) with
      | some r => some r
      | none => searchDP pAt tail

/-- The character for a decimal digit value. -/
def digCh (n : Nat) : Char := Char.ofNat (48 + n)

/-- Python `f"{n:02d}"`. -/
def pad2 (n : Nat) : List Char :=
  if n < 100 then [digCh (n / 10), digCh (n % 10)] else (Nat.repr n).data

/-- Python `f"{n:04d}"`. -/
def pad4 (n : Nat) : List Char :=
  if n < 10000 then
    [digCh (n / 1000), digCh (n / 100 % 10), digCh (n / 10 % 10), digCh (n % 10)]
  else (Nat.repr n).data

/-- `f"{int(y):04d}{int(mo):02d}{int(d):02d}"`. -/
def fmtDate (y mo d : Nat) : List Char := pad4 y ++ pad2 mo ++ pad2 d

/-- `extract_date`: normalize, try the four `DATE_PATTERNS` in order, and
format the first match as an eight-character `YYYYMMDD` string. -/
def extract_date (text : String) : Option String :=
  let t := normalize_text_list text.data
  match searchDP p1At t with
  | some (y, mo, d) => some (fmtDate y mo d).asString
  | none =>
    match searchDP p2At t with
    | some (y, mo, d) => some (fmtDate y mo d).asString
    | none =>
      match searchDP p3At t with
      | some (y, mo, d) => some (fmtDate y mo d).asString
      | none =>
        match searchDP p4At t with
        | some (y, mo, d) => some (fmtDate y mo d).asString
        | none => none

/-! ### classify_rules.py — category detection -/

/-- `STRONG_PATIENTLIST`: the strong patient-roster signals. -/
def STRONG_PATIENTLIST : List Re := [
  .cat (rLit "患者") (.grp 1 (rAlts [rLit "一覧", rLit "台帳"])),
  rSeq [rLit "Patient", wsStar, rLit "List"],
  rLit "フェイスシート", rLit "利用者基本情報", rLit "基本情報",
  rLit "ご利用者様", rLit "申請者の現状",
  rLit "リハビリテーション総合実施計画書", rLit "受入依頼票"]

/-- `STRONG_REPORT`: the strong treatment-report signals (the last one a
DOTALL co-occurrence of the reporting-period phrase with a summary
phrase). -/
def STRONG_REPORT : List Re := [
  rLit "治療報告書", rLit "施術報告書", rLit "経過報告",
  rSeq [rLit "報告対象年月", rStar (.cls ⟨true, []⟩),
    rAlts [rLit "目標", rLit "所感", rLit "現状"]]]

/-- The per-category scores: for each category, the sum over its patterns
of the number of occurrences found (`re.findall` with `IGNORECASE`). -/
def scoresFor (t : List Char) : List (String × Nat) :=
  KEYWORDS.map (fun p => (p.1, (p.2.map (fun re => findCount true re t)).sum))

/-- Python `max(scores, key=...)` over an association list in insertion
order: the first entry with the maximal value wins. -/
def bestOf : List (String × Nat) → String × Nat
  | [] => ("", 0)
  | p :: rest => rest.foldl (fun acc q => if q.2 > acc.2 then q else acc) p

/-- The tie-break conditions of steps 4–6 of `detect_category`. -/
def consultRe : Re := .grp 1 (rAlts [rLit "相談支援", rLit "相談支援事業所",
  rLit "計画作成担当者", rLit "基本情報"])

/-- The performance-record defining phrase group of step 4. -/
def ryoyoRe : Re := .grp 1 (rAlts [rLit "療養費", rLit "療養費支給申請書"])

/-- The invoice core-phrase group of step 5. -/
def invoiceCoreRe : Re := .grp 1 (rAlts [rLit "請求書", rLit "INVOICE",
  rLit "請求書番号", rLit "請求金額", rLit "ご請求金額", rLit "振込先",
  rLit "内訳", rLit "合計金額"])

/-- The report-leaning phrase group of step 5. -/
def reportishRe : Re := .grp 1 (rAlts [rLit "報告対象年月", rLit "所感",
  rLit "目標", rLit "初療日", rLit "往診日", rLit "施術", rLit "マッサージ"])

/-- The report-leaning phrase group of step 6. -/
def reportish2Re : Re := .grp 1 (rAlts [rLit "報告対象年月", rLit "所感",
  rLit "目標", rLit "初療日", rLit "往診日"])

/-- `detect_category` on character lists: strong-signal short-circuits,
occurrence-count scoring, the three tie-break overrides, and the catch-all
`その他` when the best score is zero. -/
def detect_category_list (text : List Char) : String :=
  let t := normalize_text_list text
  if STRONG_PATIENTLIST.any (fun re => (reSearch true re t).isSome) then "患者リスト"
  else if STRONG_REPORT.any (fun re => (reSearch true re t).isSome) then "治療報告書"
  else
    let scores := scoresFor t
    let best := bestOf scores
    if best.1 = "実績" ∧ (reSearch false consultRe t).isSome
        ∧ ¬(reSearch false ryoyoRe t).isSome then "患者リスト"
    else if best.1 = "請求書" ∧ ¬(reSearch true invoiceCoreRe t).isSome
        ∧ (reSearch false reportishRe t).isSome then "治療報告書"
    else if (best.1 = "実績" ∨ best.1 = "患者リスト")
        ∧ (reSearch false reportish2Re t).isSome then "治療報告書"
    else if best.2 > 0 then best.1
    else "その他"

/-- `detect_category` at the string API. -/
def detect_category (text : String) : String := detect_category_list text.data

/-! ### classify_rules.py — name extraction -/

/-- `[^\n]` (the dot without DOTALL, and the explicit class). -/
def notNl : Re := rNCls [.single '\n']

/-- `label\s*[:：]?` prefix shared by the label scanners. -/
def labelPre (lb : Re) : Re := rSeq [lb, wsStar, colonOpt]

/-- Try candidates in reversed order, as the loop of
`_fullname_on_same_line_after` does: duplicate-token repair using the text
after the candidate, then join, then the address/validator acceptance
test. -/
def pickRevCand (line : List Char) : List MRes → Option (List Char)
  | [] => none
  | g :: rest =>
      let g1 := groupGet g.groups 1
      let g2 := groupGet g.groups 2
      let g2 :=
        if g1 = g2 then
          let tail := (line.drop g.stop).take 20
          match reMatchStart false (.cat wsStar (.grp 1 NAME_TOKEN)) tail with
          | some n =>
              let n1 := groupGet n.groups 1
              if n1 ≠ g2 then n1 else g2
          | none => g2
        else g2
      let cand := _join_fullname g1 g2
      if cand ≠ [] ∧ ¬_looks_addressy cand ∧ _is_valid_person_tokens g1 g2 "patient"
      then some cand
      else pickRevCand line rest

/-- `_fullname_on_same_line_after`: take the rest of the label's line, cut
it at competing labels, and pick the last acceptable full-name candidate. -/
def _fullname_on_same_line_after (lb : Re) (t : List Char) : Option (List Char) :=
  match reSearch false (.cat (labelPre lb) (rStar notNl)) t with
  | none => none
  | some m =>
      let line := _strip_after_labels (m.matched t)
      let c1 := findIter false FULLNAME_SEP line
      let cands := if c1.isEmpty then findIter false FULLNAME_CONTIG line else c1
      pickRevCand line cands.reverse

/-- `_fullname_on_next_line_after`: search the 120 characters after the
label's line for a full name. -/
def _fullname_on_next_line_after (lb : Re) (t : List Char) : Option (List Char) :=
  match reSearch false
      (rSeq [lb, wsStar, colonOpt, .rep 0 none true notNl, .lit ['\n']]) t with
  | none => none
  | some m =>
      let next_line := _strip_after_labels ((t.drop m.stop).take 120)
      let g? :=
        match reSearch false FULLNAME_SEP next_line with
        | some g => some g
        | none => reSearch false FULLNAME_CONTIG next_line
      match g? with
      | none => none
      | some g =>
          let g1 := groupGet g.groups 1
          let g2 := groupGet g.groups 2
          let cand := _join_fullname g1 g2
          if cand ≠ [] ∧ ¬_looks_addressy cand
             ∧ _is_valid_person_tokens g1 g2 "patient" ∧ g1 ≠ g2
          then some cand else none

/-- `_name_after_label_window`: an 80-character window after the label,
cut at competing labels, searched for a validated full name. -/
def _name_after_label_window (lb : Re) (t : List Char) : Option (List Char) :=
  match reSearch false
      (rSeq [lb, wsStar, colonOpt, wsStar, .grp 1 (.rep 0 (some 80) false notNl)]) t with
  | none => none
  | some m =>
      let win := _strip_after_labels (groupGet m.groups 1)
      let g? :=
        match reSearch false FULLNAME_SEP win with
        | some g => some g
        | none => reSearch false FULLNAME_CONTIG win
      match g? with
      | none => none
      | some g =>
          let g1 := groupGet g.groups 1
          let g2 := groupGet g.groups 2
          let cand := _join_fullname g1 g2
          if cand ≠ [] ∧ ¬_looks_addressy cand
             ∧ _is_valid_person_tokens g1 g2 "patient" ∧ g1 ≠ g2
          then some cand else none

/-- The salvage loop of `_fullname_after_broken_shimei`: the first span in
which the two characters of the name label are split and which contains a
full-name candidate yields the join of the last candidate. -/
def brokenShimeiLoop (t : List Char) : List MRes → Option (List Char)
  | [] => none
  | m :: rest =>
      let line := m.matched t
      let c1 := findIter false FULLNAME_SEP line
      let cands := if c1.isEmpty then findIter false FULLNAME_CONTIG line else c1
      match cands.getLast? with
      | some g => some (_join_fullname (groupGet g.groups 1) (groupGet g.groups 2))
      | none => brokenShimeiLoop t rest

/-- `_fullname_after_broken_shimei`. -/
def _fullname_after_broken_shimei (t : List Char) : Option (List Char) :=
  brokenShimeiLoop t
    (findIter false
      (rSeq [rLit "氏", .rep 0 (some 40) false notNl, rLit "名", rStar notNl]) t)

/-- `TAIL_SAMA`: the honorific-suffix pattern
`(?:\s*(?:様|樣)(?:の|は|です|で|に)?|\s*さま)`. -/
def TAIL_SAMA : Re := .alt
  (rSeq [wsStar, rAlts [rLit "様", rLit "樣"],
    rOpt (rAlts [rLit "の", rLit "は", rLit "です", rLit "で", rLit "に"])])
  (.cat wsStar (rLit "さま"))

/-- The `_accept` helper local to `extract_patient`. -/
def patientAccept (g1 g2 : List Char) : Option (List Char) :=
  let cand := _join_fullname g1 g2
  if cand ≠ [] ∧ ¬_looks_addressy cand ∧ _is_valid_person_tokens g1 g2 "patient"
  then some cand else none

/-- The patient label list of `extract_patient`, in source order. -/
def PATIENT_LABELS : List Re :=
  [rLit "患者氏名", rLit "患者名", rLit "患者様氏名", rLit "患者様名",
   rLit "被保険者氏名", rLit "被保険者名"]

/-- The per-label fallback chain of step 1 of `extract_patient`. -/
def patientLabelLoop (t : List Char) : List Re → Option (List Char)
  | [] => none
  | lb :: rest =>
      match _name_after_label_window lb t with
      | some cand => some cand
      | none =>
        let viaSep :=
          match reSearch false (rSeq [lb, wsStar, colonOpt, wsStar, FULLNAME_SEP]) t with
          | some m => patientAccept (groupGet m.groups 1) (groupGet m.groups 2)
          | none => none
        match viaSep with
        | some cand => some cand
        | none =>
          let viaContig :=
            match reSearch false
                (rSeq [lb, wsStar, colonOpt, wsStar, FULLNAME_CONTIG]) t with
            | some m => patientAccept (groupGet m.groups 1) (groupGet m.groups 2)
            | none => none
          match viaContig with
          | some cand => some cand
          | none =>
            match _fullname_on_same_line_after lb t with
            | some fn => some fn
            | none =>
              match _fullname_on_next_line_after lb t with
              | some fn2 => some fn2
              | none => patientLabelLoop t rest

/-- `extract_patient`: honorific-suffixed name first, then the labelled
fallback chains, then the generic patient window, then the broken-label
salvage. -/
def extract_patient_list (text : List Char) : Option (List Char) :=
  let t := normalize_text_list text
  let step0 :=
    let m? :=
      match reSearch false (.cat FULLNAME_SEP TAIL_SAMA) t with
      | some m => some m
      | none => reSearch false (.cat FULLNAME_CONTIG TAIL_SAMA) t
    match m? with
    | some m =>
        let cand := _join_fullname (groupGet m.groups 1) (groupGet m.groups 2)
        if cand ≠ [] ∧ ¬_looks_addressy cand then some cand else none
    | none => none
  match step0 with
  | some cand => some cand
  | none =>
    match patientLabelLoop t PATIENT_LABELS with
    | some cand => some cand
    | none =>
      let step2 :=
        match reSearch false
            (.grp 1 (.cat (rLit "患者") (.rep 0 (some 60) false notNl))) t with
        | some m => _name_after_label_window (rLit "患者") (groupGet m.groups 1)
        | none => none
      match step2 with
      | some cand => some cand
      | none =>
        match _fullname_after_broken_shimei t with
        | some fn => if fn ≠ [] ∧ ¬_looks_addressy fn then some fn else none
        | none => none

/-- `extract_patient` at the string API. -/
def extract_patient (text : String) : Option String :=
  (extract_patient_list text.data).map List.asString

/-- The clinician label list of `extract_doctor`, in source order. -/
def DOCTOR_LABELS : List Re :=
  [rLit "保険医氏名", rLit "医師氏名", rLit "医師名", rLit "担当医",
   rLit "先生", rLit "Dr", rLit "Doctor"]

/-- The per-label loop of `extract_doctor`: the joined pair is returned
unconditionally on a match (no validator, no address check). -/
def doctorLabelLoop (t : List Char) : List Re → Option (List Char)
  | [] => none
  | lb :: rest =>
      match reSearch true (rSeq [lb, wsStar, colonOpt, wsStar, FULLNAME_SEP]) t with
      | some m => some (_join_fullname (groupGet m.groups 1) (groupGet m.groups 2))
      | none =>
        match reSearch true (rSeq [lb, wsStar, colonOpt, wsStar, FULLNAME_CONTIG]) t with
        | some m => some (_join_fullname (groupGet m.groups 1) (groupGet m.groups 2))
        | none => doctorLabelLoop t rest

/-- `extract_doctor`. -/
def extract_doctor_list (text : List Char) : Option (List Char) :=
  doctorLabelLoop (normalize_text_list text) DOCTOR_LABELS

/-- `extract_doctor` at the string API. -/
def extract_doctor (text : String) : Option String :=
  (extract_doctor_list text.data).map List.asString

/-! ### classify_rules.py — remaining field extractors -/

/-- The value class `[^\n\r\t 　]` of the simple label scanners. -/
def simpleValC : CCls :=
  ⟨true, [.single '\n', .single '\r', .single '\t', .single ' ', .single '　']⟩

/-- `extract_staff` — the second (effective) definition, which scans the
raw (un-normalized) text for four role labels. -/
def extract_staff (text : String) : Option String :=
  match reSearch false
      (rSeq [.grp 1 (rAlts [rLit "スタッフ", rLit "担当者", rLit "施術者", rLit "作成者"]),
        wsStar, colonOpt, wsStar, .grp 2 (.rep 2 (some 30) false (.cls simpleValC))])
      text.data with
  | some m => some (stripWs (groupGet m.groups 2)).asString
  | none => none

/-- `extract_client` (raw text). -/
def extract_client (text : String) : Option String :=
  match reSearch false
      (rSeq [.grp 1 (rAlts [rLit "営業先", rLit "会社名", rLit "取引先"]),
        wsStar, colonOpt, wsStar, .grp 2 (.rep 2 (some 50) false (.cls simpleValC))])
      text.data with
  | some m => some (stripWs (groupGet m.groups 2)).asString
  | none => none

/-- `extract_client_dept` (raw text). -/
def extract_client_dept (text : String) : Option String :=
  match reSearch false
      (rSeq [.grp 1 (rAlts [rLit "担当", rLit "担当区", rLit "部署", rLit "部", rLit "課"]),
        wsStar, colonOpt, wsStar, .grp 2 (.rep 2 (some 50) false (.cls simpleValC))])
      text.data with
  | some m => some (stripWs (groupGet m.groups 2)).asString
  | none => none

/-- `CLINIC_SUFFIX`: recognized institution-type suffix words. -/
def CLINIC_SUFFIX : Re := rAlts [
  rLit "訪問マッサージ鍼灸院", rLit "鍼灸院", rLit "針灸院", rLit "はりきゅう院",
  rLit "鍼灸整骨院", rLit "整骨院", rLit "接骨院", rLit "整体院", rLit "治療院",
  rLit "クリニック", rLit "医院", rLit "病院", rLit "医科", rLit "歯科",
  rLit "施術所"]

/-- `[^\n\r]` -/
def notNlCr : Re := rNCls [.single '\n', .single '\r']

/-- `[^\s\n\r]` -/
def notWsNlCr : Re := rNCls [.ws, .single '\n', .single '\r']

/-- The deferential-suffix markers `(?:御中|様|殿|宛)`. -/
def deferentialRe : Re := rAlts [rLit "御中", rLit "様", rLit "殿", rLit "宛"]

/-- `extract_clinic`: explicit institution-name labels first, then the
deferential-marker pattern, then the bare suffix pattern, then a
deferential line that contains an institution suffix. -/
def extract_clinic (text : String) : Option String :=
  let t := normalize_text_list text.data
  match reSearch false
      (rSeq [.grp 1 (rAlts [rLit "治療院名", rLit "施術所名", rLit "事業所名",
          rLit "クリニック名", rLit "医院名", rLit "病院名"]),
        wsStar, colonOpt, wsStar, .grp 2 (.rep 2 (some 60) false notNlCr)]) t with
  | some m => some (stripWs (groupGet m.groups 2)).asString
  | none =>
    match reSearch false
        (rSeq [.grp 1 (.cat (.rep 2 (some 60) true notNlCr) CLINIC_SUFFIX),
          wsStar, deferentialRe]) t with
    | some m => some (stripWs (groupGet m.groups 1)).asString
    | none =>
      match reSearch false
          (.grp 1 (.cat (.rep 1 (some 60) false notWsNlCr) CLINIC_SUFFIX)) t with
      | some m => some (stripWs (groupGet m.groups 1)).asString
      | none =>
        match reSearch false
            (rSeq [.grp 1 (.rep 2 (some 60) true notNlCr), wsStar, deferentialRe]) t with
        | some m =>
            if (reSearch false CLINIC_SUFFIX (groupGet m.groups 1)).isSome
            then some (stripWs (groupGet m.groups 1)).asString
            else none
        | none => none

/-- `extract_invoice_clinic`: the invoice-addressee specialization. -/
def extract_invoice_clinic (text : String) : Option String :=
  let t := normalize_text_list text.data
  match reSearch false
      (rSeq [.grp 1 (.cat (.rep 2 (some 60) true notNlCr) CLINIC_SUFFIX),
        wsStar, deferentialRe]) t with
  | some m => some (stripWs (groupGet m.groups 1)).asString
  | none =>
    match reSearch false
        (rSeq [rAlts [rLit "請求先", rLit "宛先"], wsStar, colonOpt, wsStar,
          .grp 1 (.cat (.rep 2 (some 60) true notNlCr) CLINIC_SUFFIX)]) t with
    | some m => some (stripWs (groupGet m.groups 1)).asString
    | none =>
      match reSearch false
          (.grp 1 (.cat (.rep 1 (some 60) false notWsNlCr) CLINIC_SUFFIX)) t with
      | some m => some (stripWs (groupGet m.groups 1)).asString
      | none => none

/-! ### classify_rules.py — filename generation -/

/-- The characters the filename sanitizer removes:
`\ / : * ? " < > |`. -/
def isBadFn (c : Char) : Bool :=
  c = '\\' || c = '/' || c = ':' || c = '*' || c = '?' ||
  c = '"' || c = '<' || c = '>' || c = '|'

/-- Replace every maximal run of characters satisfying `p` by the single
character `r` (the effect of `re.sub("[X]+", r, s)`).  `prevIn` records
whether the previous character belonged to a run. -/
def collapseRunsAux (p : Char → Bool) (r : Char) : Bool → List Char → List Char
  | _, [] => []
  | prevIn, c :: rest =>
      if p c then
        (if prevIn then [] else [r]) ++ collapseRunsAux p r true rest
      else c :: collapseRunsAux p r false rest

/-- `_sanitize_filename`: collapse runs of illegal characters to an
underscore, strip, and fall back to the placeholder on emptiness. -/
def _sanitize_filename (name : List Char) : List Char :=
  let s := stripWs (collapseRunsAux isBadFn '_' false name)
  if s.isEmpty then "不明".data else s

/-- `_ym_from_dt`: `f"{dt[0:4]}年{dt[4:6]}月"`. -/
def _ym_from_dt (dt : List Char) : List Char :=
  dt.take 4 ++ "年".data ++ (dt.drop 4).take 2 ++ "月".data

/-- Space (plain or ideographic), collapsed by the first pass of
`_compact`. -/
def isSpFW (c : Char) : Bool := c = ' ' || c = '　'

/-- Space or underscore — the class of the third pass of `_compact`. -/
def isSpUs (c : Char) : Bool := c = ' ' || c = '_'

/-- The third pass of `_compact`: `re.sub("[ _]{2,}", " ", s)` — replace
every run of two or more spaces/underscores by one space; a lone
space/underscore is kept.  The `Bool` is true while skipping the rest of a
run already replaced. -/
def compactPass3 : Bool → List Char → List Char
  | _, [] => []
  | true, c :: rest =>
      if isSpUs c then compactPass3 true rest
      else c :: compactPass3 false rest
  | false, [c] => [c]
  | false, c :: d :: rest2 =>
      if isSpUs c then
        (if isSpUs d then ' ' :: compactPass3 true rest2
         else c :: d :: compactPass3 false rest2)
      else c :: compactPass3 false (d :: rest2)

/-- `_compact`: collapse space runs and strip, collapse underscore runs,
then collapse mixed space/underscore runs of length at least two. -/
def _compact (s : List Char) : List Char :=
  compactPass3 false
    (collapseRunsAux (fun c => c = '_') '_' false
      (stripWs (collapseRunsAux isSpFW ' ' false s)))

/-- Python truthiness fallback `x or d` for an optional string. -/
def orDefault : Option String → List Char → List Char
  | some s, d => if s.data.isEmpty then d else s.data
  | none, d => d

/-- The token record built by `_tokens`. -/
structure Toks where
  patient : List Char
  doctor : List Char
  date : List Char
  ym : List Char
  client : List Char
  client_dept : List Char
  clinic : List Char
  staff : List Char
  invoice_clinic : List Char

/-- `_tokens`: the substitution values for the naming templates.
`now` stands for `datetime.now().strftime("%Y%m%d")`, the build-time
clock made an explicit parameter. -/
def _tokens (text : String) (patient doctor : Option String)
    (date_str : Option String) (now : String) : Toks :=
  let dt := orDefault date_str now.data
  let ym := _ym_from_dt dt
  ⟨_sanitize_filename (orDefault patient "不明".data),
   _sanitize_filename (orDefault doctor "不明".data),
   dt, ym,
   _sanitize_filename (orDefault (extract_client text) "営業先不明".data),
   _sanitize_filename (orDefault (extract_client_dept text) "担当区不明".data),
   _sanitize_filename (orDefault (extract_clinic text) "治療院不明".data),
   _sanitize_filename (orDefault (extract_staff text) "スタッフ不明".data),
   _sanitize_filename (orDefault (extract_invoice_clinic text)
     (orDefault (extract_clinic text) "治療院不明".data))⟩

/-- `NAMING_TEMPLATES` applied by `format_map`: each category's template
expanded over the token record; unregistered categories use the generic
`{cat}_{patient}_{date}` template. -/
def applyTemplate (category : String) (tk : Toks) : List Char :=
  if category = "同意書" then
    "同意書_".data ++ tk.patient ++ "_".data ++ tk.doctor ++ "_".data ++ tk.date
  else if category = "保険証" then
    "保険証_".data ++ tk.patient ++ "_".data ++ tk.date
  else if category = "治療報告書" then
    tk.patient ++ "_".data ++ tk.client ++ "_".data ++ tk.client_dept ++ "_".data ++
      tk.ym ++ "_".data ++ tk.clinic ++ "_治療報告書_".data ++ tk.staff
  else if category = "患者リスト" then
    "患者リスト_".data ++ tk.patient ++ "_".data ++ tk.doctor ++ "_".data ++ tk.date
  else if category = "請求書" then
    "請求書_".data ++ tk.invoice_clinic ++ "_".data ++ tk.ym
  else if category = "実績" then
    "実績_".data ++ tk.clinic ++ "_".data ++ tk.ym
  else
    category.data ++ "_".data ++ tk.patient ++ "_".data ++ tk.date

/-- `MAX_BASENAME` of `build_filename`. -/
def MAX_BASENAME : Nat := 80

/-- The base name of `build_filename` before the extension: template
expansion, compaction, and the length bound with trailing separator
trimming. -/
def buildBase (category : String) (patient doctor : Option String)
    (date_str : Option String) (text : String) (now : String) : List Char :=
  let toks := _tokens text patient doctor date_str now
  let name := _compact (applyTemplate category toks)
  if name.length > MAX_BASENAME then
    rstripWs (rstripChars "_ ".data (name.take MAX_BASENAME))
  else name

/-- `build_filename`: the base name plus the extension, exactly as the
source returns `f"{name}{ext}"`. -/
def build_filename (category : String) (patient doctor : Option String)
    (date_str : Option String) (ext : String) (text : String) (now : String) : String :=
  (buildBase category patient doctor date_str text now ++ ext.data).asString

/-! ### The pipeline (normalize → classify → extract → name) -/

/-- The result of one pipeline run. -/
structure PipelineResult where
  category : String
  patient : Option String
  doctor : Option String
  date : Option String
  filename : String
  deriving Repr, DecidableEq

/-- The full pipeline on one document: classify, extract the named fields,
and build the filename, with the build-time clock `now` explicit. -/
def pipeline (text ext now : String) : PipelineResult :=
  let cat := detect_category text
  let patient := extract_patient text
  let doctor := extract_doctor text
  let date := extract_date text
  ⟨cat, patient, doctor, date,
   build_filename cat patient doctor date ext text now⟩

/-! ### AI_OCR.py — filename uniquification -/

/-- Python `str.rpartition(".")` restricted to what `uniquify_filename`
uses: `some (before, after)` splits at the last dot, `none` when the
filename has no dot. -/
def rpartitionDot (s : List Char) : Option (List Char × List Char) :=
  let rev := s.reverse
  match rev.dropWhile (fun c => c ≠ '.') with
  | [] => none
  | _ :: baseRev => some (baseRev.reverse, (rev.takeWhile (fun c => c ≠ '.')).reverse)

/-- The versioned candidate `f"{base}_v{i}{ext}"`. -/
def versionedName (base ext : List Char) (i : Nat) : String :=
  (base ++ "_v".data ++ (Nat.repr i).data ++ ext).asString

/-- The counting loop of `uniquify_filename` (`for i in range(2, 50)`),
fueled by the remaining number of attempts. -/
def uniquifyLoop (ex : String → String → Bool) (folder : String)
    (base ext : List Char) : Nat → Nat → Option String
  | 0, _ => none
  | n+1, i =>
      let cand := versionedName base ext i
      if ex folder cand then uniquifyLoop ex folder base ext n (i+1)
      else some cand

/-- The base/extension split used by `uniquify_filename`:
`base, dot, ext = filename.rpartition("."); base = base if dot else filename;
ext = f".{ext}" if dot else ""`. -/
def uniqBase (filename : String) : List Char × List Char :=
  match rpartitionDot filename.data with
  | some (b, e) => (b, '.' :: e)
  | none => (filename.data, [])

/-- `uniquify_filename` with the storage existence check `ex` (the Graph
API `_file_exists`) and the opaque suffix `uuidHex`
(`uuid.uuid4().hex[:6]`) made explicit parameters: return the name
unchanged if free, else the first free versioned candidate, else the
opaque-suffix name without any further existence check. -/
def uniquify_filename (ex : String → String → Bool) (folder filename : String)
    (uuidHex : String) : String :=
  if ex folder filename then
    match uniquifyLoop ex folder (uniqBase filename).1 (uniqBase filename).2 48 2 with
    | some cand => cand
    | none =>
        ((uniqBase filename).1 ++ "_".data ++ uuidHex.data ++ (uniqBase filename).2).asString
  else filename

/-! ### Specification-side definitions (for refinement claims) -/

/-- Modelled from the spec's words for the amended selection rule: the
earliest-declared category whose score is maximal (each entry wins ties
against everything declared after it). -/
def specBest : List (String × Nat) → String × Nat
  | [] => ("", 0)
  | p :: rest =>
      let q := specBest rest
      if p.2 ≥ q.2 then p else q

/-- Modelled from the spec's words, as amended: the classifier first
short-circuits on the strong patient-roster signals, then on the strong
treatment-report signals; otherwise it scores every category by summing
plain occurrence counts over its pattern table (no weights, no anchor
flags, no penalties), selects the earliest-declared category of maximal
score, applies the three fixed domain tie-break overrides, and outputs
`その他` exactly when no signal or override fired and the maximal score is
zero. -/
def detect_category_spec (text : String) : String :=
  let t := normalize_text_list text.data
  if STRONG_PATIENTLIST.any (fun re => (reSearch true re t).isSome) then "患者リスト"
  else if STRONG_REPORT.any (fun re => (reSearch true re t).isSome) then "治療報告書"
  else
    let best := specBest (scoresFor t)
    if best.1 = "実績" ∧ (reSearch false consultRe t).isSome
        ∧ ¬(reSearch false ryoyoRe t).isSome then "患者リスト"
    else if best.1 = "請求書" ∧ ¬(reSearch true invoiceCoreRe t).isSome
        ∧ (reSearch false reportishRe t).isSome then "治療報告書"
    else if (best.1 = "実績" ∨ best.1 = "患者リスト")
        ∧ (reSearch false reportish2Re t).isSome then "治療報告書"
    else if best.2 > 0 then best.1
    else "その他"

/-- A character that is neither whitespace nor an underscore — one that
every pass of `_compact` and every trailing-separator trim preserves. -/
def solidC (c : Char) : Bool := !isPyWs c && !(c = '_')

/-- A character the filename-safety property allows (not one of
`\ / : * ? " < > |`). -/
def okFn (c : Char) : Bool := !isBadFn c

/-! ## General lemmas -/

theorem all_of_sublist {l m : List Char} {q : Char → Bool} (hs : l.Sublist m)
    (h : m.all q = true) : l.all q = true := by
  simp only [List.all_eq_true] at h ⊢
  exact fun c hc => h c (hs.mem hc)

theorem all_dropWhile {l : List Char} {p q : Char → Bool} (h : l.all q = true) :
    (l.dropWhile p).all q = true :=
  all_of_sublist (List.dropWhile_sublist p) h

theorem all_take {l : List Char} {q : Char → Bool} (n : Nat) (h : l.all q = true) :
    (l.take n).all q = true :=
  all_of_sublist (List.take_sublist n l) h

theorem all_stripWs {l : List Char} {q : Char → Bool} (h : l.all q = true) :
    (stripWs l).all q = true := by
  unfold stripWs
  rw [List.all_reverse]
  exact all_dropWhile (by rw [List.all_reverse]; exact all_dropWhile h)

theorem all_rstripChars {bad l : List Char} {q : Char → Bool} (h : l.all q = true) :
    (rstripChars bad l).all q = true := by
  unfold rstripChars
  rw [List.all_reverse]
  exact all_dropWhile (by rw [List.all_reverse]; exact h)

theorem all_rstripWs {l : List Char} {q : Char → Bool} (h : l.all q = true) :
    (rstripWs l).all q = true := by
  unfold rstripWs
  rw [List.all_reverse]
  exact all_dropWhile (by rw [List.all_reverse]; exact h)

theorem dropWhile_append_last {p : Char → Bool} (l : List Char) (c : Char)
    (hc : p c = false) : ∃ y, (l ++ [c]).dropWhile p = y ++ [c] := by
  induction l with
  | nil => exact ⟨[], by simp [List.dropWhile, hc]⟩
  | cons a as ih =>
      by_cases h : p a = true
      · simpa [List.dropWhile_cons, h] using ih
      · exact ⟨a :: as, by simp [List.dropWhile_cons, h]⟩

theorem rstripChars_cons_ne_nil {bad : List Char} {c : Char} (l : List Char)
    (hc : bad.contains c = false) : rstripChars bad (c :: l) ≠ [] := by
  unfold rstripChars
  have : (c :: l).reverse = l.reverse ++ [c] := by simp
  rw [this]
  obtain ⟨y, hy⟩ := dropWhile_append_last l.reverse c hc
  rw [hy]
  simp

theorem rstripWs_cons_ne_nil {c : Char} (l : List Char)
    (hc : isPyWs c = false) : rstripWs (c :: l) ≠ [] := by
  unfold rstripWs
  have : (c :: l).reverse = l.reverse ++ [c] := by simp
  rw [this]
  obtain ⟨y, hy⟩ := dropWhile_append_last l.reverse c hc
  rw [hy]
  simp

theorem stripWs_cons_head {c : Char} (l : List Char) (hc : isPyWs c = false) :
    ∃ l2, stripWs (c :: l) = c :: l2 := by
  unfold stripWs
  rw [List.dropWhile_cons, hc]
  simp only [Bool.false_eq_true, if_false]
  have : (c :: l).reverse = l.reverse ++ [c] := by simp
  rw [this]
  obtain ⟨y, hy⟩ := dropWhile_append_last l.reverse c hc
  rw [hy]
  exact ⟨y.reverse, by simp⟩

/-! ## Claim C4 — absence-safety on empty input -/

/-- C4: on empty input nothing raises: normalization returns the empty
string, every field extractor returns `none`, and the classifier returns
the catch-all `その他` category. -/
theorem C4_empty_input_absence :
    normalize_text "" = "" ∧
    extract_patient "" = none ∧
    extract_doctor "" = none ∧
    extract_date "" = none ∧
    extract_staff "" = none ∧
    extract_client "" = none ∧
    extract_client_dept "" = none ∧
    extract_clinic "" = none ∧
    extract_invoice_clinic "" = none ∧
    detect_category "" = "その他" := by
  decide

/-! ## Claim C5 — normalization idempotence -/

/-- C5: `normalize_text` is not idempotent.  On `スタッフ名名` the first
pass rewrites the staff label and leaves `スタッフ名`, which the second
pass rewrites again to `スタッフ` — the spec's idempotence contract
(`normalize(normalize(x)) == normalize(x)`) fails at this input. -/
theorem C5_normalize_not_idempotent :
    normalize_text "スタッフ名名" = "スタッフ名" ∧
    normalize_text "スタッフ名" = "スタッフ" ∧
    normalize_text (normalize_text "スタッフ名名") ≠ normalize_text "スタッフ名名" := by
  decide

/-! ## Claim C8 — one-character token pairs -/

/-- C8: the effective name-token validator (the second definition of
`_is_valid_person_tokens`, which shadows the first) accepts the pair of
one-character tokens `大`/`昭` for the patient role; only the shadowed,
never-executed first definition rejects it, as the claim demands. -/
theorem C8_one_char_pair_accepted :
    _is_valid_person_tokens "大".data "昭".data "patient" = true ∧
    _is_valid_person_tokens_v1 "大".data "昭".data "patient" = false := by
  decide

/-! ## Claim C3 — extractors versus the shared validator -/

/-- C3 counterexample: the doctor extractor returns the join of the token
pair `薬局`/`太郎`, which the shared validator rejects (the first token
contains the institution word `薬局`) — so not every returned name comes
from a validator-accepted pair. -/
theorem C3_counterexample :
    extract_doctor "医師名 薬局 太郎" = some "薬局太郎" ∧
    "薬局太郎".data = _join_fullname "薬局".data "太郎".data ∧
    _is_valid_person_tokens "薬局".data "太郎".data "doctor" = false := by
  decide

/-- C3 as amended: the patient extractor's label-window strategy
(`_name_after_label_window`) returns only candidates that are the join of
a token pair accepted by the shared validator and that pass the address
filter; the honorific-suffix strategy and the doctor extractor perform no
such validation. -/
theorem C3_window_candidates_validated :
    ∀ (lb : Re) (t cand : List Char), _name_after_label_window lb t = some cand →
      ∃ g1 g2, cand = _join_fullname g1 g2 ∧
        _is_valid_person_tokens g1 g2 "patient" = true ∧
        _looks_addressy cand = false ∧ g1 ≠ g2 ∧ cand ≠ [] := by
  intro lb t cand h
  simp only [_name_after_label_window] at h
  split at h
  · exact absurd h (by simp)
  · split at h
    · exact absurd h (by simp)
    · split at h
      · rename_i g1 g2 cand0 hcond
        injection h with h
        subst h
        refine ⟨_, _, rfl, ?_, ?_, ?_, ?_⟩
        · simpa using hcond.2.2.1
        · simpa using hcond.2.1
        · exact hcond.2.2.2
        · exact hcond.1
      · exact absurd h (by simp)

/-- C3 witness: at the concrete text `患者氏名 佐藤 太郎` the window
strategy produces `佐藤太郎`, and the theorem yields a validator-accepted
token pair behind it. -/
theorem C3_window_witness :
    ∃ g1 g2, "佐藤太郎".data = _join_fullname g1 g2 ∧
      _is_valid_person_tokens g1 g2 "patient" = true ∧
      _looks_addressy "佐藤太郎".data = false ∧ g1 ≠ g2 ∧ "佐藤太郎".data ≠ [] :=
  C3_window_candidates_validated (rLit "患者氏名") "患者氏名 佐藤 太郎".data
    "佐藤太郎".data (by decide)

/-! ## Claim C1 — classifier selection rule -/

/-- C1 counterexample: on `フェイスシート 同意 承諾 署名 サイン` the
category `同意書` has the strictly maximal score (4, positive; every other
category scores at most 1), yet the classifier returns `患者リスト` via
the strong-signal short-circuit — neither the maximal-score category nor
the catch-all, contradicting the claimed selection rule. -/
theorem C1_counterexample :
    detect_category "フェイスシート 同意 承諾 署名 サイン" = "患者リスト" ∧
    scoresFor (normalize_text_list "フェイスシート 同意 承諾 署名 サイン".data) =
      [("同意書", 4), ("保険証", 0), ("治療報告書", 0), ("患者リスト", 1),
       ("請求書", 0), ("実績", 0)] ∧
    ("患者リスト" : String) ≠ "同意書" ∧ ("患者リスト" : String) ≠ "その他" := by
  decide

/-- Python's `max` over the association list in insertion order equals the
spec-side earliest-maximal selection. -/
theorem foldl_step_eq_specBest (rest : List (String × Nat)) :
    ∀ p, rest.foldl (fun acc q => if q.2 > acc.2 then q else acc) p =
      if p.2 ≥ (specBest rest).2 then p else specBest rest := by
  induction rest with
  | nil => intro p; simp [specBest]
  | cons q rest ih =>
      intro p
      rw [List.foldl_cons, ih]
      simp only [specBest]
      split_ifs <;> first | rfl | omega

/-- `bestOf` agrees with `specBest` on non-empty score lists. -/
theorem bestOf_eq_specBest (l : List (String × Nat)) (hl : l ≠ []) :
    bestOf l = specBest l := by
  match l with
  | [] => exact absurd rfl hl
  | p :: rest =>
      show rest.foldl _ p = _
      rw [foldl_step_eq_specBest]
      simp only [specBest]

/-- C1 as amended: the classifier first short-circuits on strong signals,
then scores by plain occurrence counts (no weights, anchors, or
penalties), selects the earliest-declared maximal category, applies the
three domain overrides, and returns `その他` exactly when the chosen best
score is zero — the refinement of `detect_category` to the spec-worded
`detect_category_spec`. -/
theorem C1_detect_category_refines_spec :
    ∀ t : String, detect_category t = detect_category_spec t := by
  intro t
  have hne : scoresFor (normalize_text_list t.data) ≠ [] := by
    simp [scoresFor, KEYWORDS]
  have hb := bestOf_eq_specBest (scoresFor (normalize_text_list t.data)) hne
  simp only [detect_category, detect_category_list, detect_category_spec, hb]

/-! ## Date-extraction lemmas -/

theorem isDigit_bounds {c : Char} (h : c.isDigit = true) :
    48 ≤ c.toNat ∧ c.toNat ≤ 57 := by
  simp [Char.isDigit] at h
  exact h

theorem dVal_le_9 {c : Char} (h : c.isDigit = true) : dVal c ≤ 9 := by
  have := isDigit_bounds h
  unfold dVal
  omega

theorem parseMD_le {sep : Char → Bool} {s r : List Char} {v : Nat}
    (h : parseMD sep s = some (v, r)) : v ≤ 99 := by
  rcases s with _ | ⟨a, _ | ⟨b, _ | ⟨c, rest⟩⟩⟩ <;> simp only [parseMD] at h
  · exact absurd h (by simp)
  · exact absurd h (by simp)
  · split at h
    · rename_i hc
      simp only [Bool.and_eq_true] at hc
      simp only [Option.some.injEq, Prod.mk.injEq] at h
      have := dVal_le_9 hc.1
      omega
    · exact absurd h (by simp)
  · split at h
    · rename_i hc
      simp only [Bool.and_eq_true] at hc
      simp only [Option.some.injEq, Prod.mk.injEq] at h
      have h1 := dVal_le_9 hc.1.1
      have h2 := dVal_le_9 hc.1.2
      omega
    · split at h
      · rename_i hc
        simp only [Bool.and_eq_true] at hc
        simp only [Option.some.injEq, Prod.mk.injEq] at h
        have := dVal_le_9 hc.1
        omega
      · exact absurd h (by simp)

theorem parseDay_le {s : List Char} {v : Nat} (h : parseDay s = some v) : v ≤ 99 := by
  rcases s with _ | ⟨a, _ | ⟨b, rest⟩⟩ <;> simp only [parseDay] at h
  · exact absurd h (by simp)
  · split at h
    · rename_i hc
      simp only [Option.some.injEq] at h
      have := dVal_le_9 hc
      omega
    · exact absurd h (by simp)
  · split at h
    · rename_i hc
      simp only [Bool.and_eq_true] at hc
      simp only [Option.some.injEq] at h
      have h1 := dVal_le_9 hc.1
      have h2 := dVal_le_9 hc.2
      omega
    · split at h
      · rename_i hc
        simp only [Option.some.injEq] at h
        have := dVal_le_9 hc
        omega
      · exact absurd h (by simp)

theorem parseNum2Then_le {stop : Char} {s r : List Char} {v : Nat}
    (h : parseNum2Then stop s = some (v, r)) : v ≤ 99 := by
  rcases s with _ | ⟨a, _ | ⟨b, rest2⟩⟩ <;> simp only [parseNum2Then] at h
  · exact absurd h (by simp)
  · exact absurd h (by simp)
  · split at h
    · rename_i ha
      split at h
      · rename_i hb
        cases hsw : skipWs rest2 with
        | nil => simp only [hsw] at h; exact absurd h (by simp)
        | cons c rest3 =>
            simp only [hsw] at h
            split at h
            · simp only [Option.some.injEq, Prod.mk.injEq] at h
              have h1 := dVal_le_9 ha
              have h2 := dVal_le_9 hb
              omega
            · exact absurd h (by simp)
      · cases hsw : skipWs (b :: rest2) with
        | nil => simp only [hsw] at h; exact absurd h (by simp)
        | cons c rest3 =>
            simp only [hsw] at h
            split at h
            · simp only [Option.some.injEq, Prod.mk.injEq] at h
              have h1 := dVal_le_9 ha
              omega
            · exact absurd h (by simp)
    · exact absurd h (by simp)

theorem p1At_bounds {s : List Char} {y mo d : Nat}
    (h : p1At s = some (y, mo, d)) : 2000 ≤ y ∧ y ≤ 2099 ∧ mo ≤ 99 ∧ d ≤ 99 := by
  rcases s with _ | ⟨c1, _ | ⟨c2, _ | ⟨a, _ | ⟨b, _ | ⟨c, rest2⟩⟩⟩⟩⟩ <;>
    simp only [p1At] at h
  · exact absurd h (by simp)
  · exact absurd h (by simp)
  · exact absurd h (by simp)
  · exact absurd h (by simp)
  · exact absurd h (by simp)
  · split at h
    · rename_i hc
      simp only [Bool.and_eq_true] at hc
      simp only [Option.bind_eq_some, Option.map_eq_some'] at h
      obtain ⟨⟨mo0, rest3⟩, hmd, d0, hd, heq⟩ := h
      simp only [Prod.mk.injEq] at heq
      have hda := dVal_le_9 hc.1.1.2
      have hdb := dVal_le_9 hc.1.2
      have hmo := parseMD_le hmd
      have hdd := parseDay_le hd
      omega
    · exact absurd h (by simp)

theorem p2At_bounds {s : List Char} {y mo d : Nat}
    (h : p2At s = some (y, mo, d)) : 2000 ≤ y ∧ y ≤ 2099 ∧ mo ≤ 99 ∧ d ≤ 99 := by
  rcases s with _ | ⟨c1, _ | ⟨c2, _ | ⟨a, _ | ⟨b, _ | ⟨c, rest2⟩⟩⟩⟩⟩ <;>
    simp only [p2At] at h
  · exact absurd h (by simp)
  · exact absurd h (by simp)
  · exact absurd h (by simp)
  · exact absurd h (by simp)
  · exact absurd h (by simp)
  · split at h
    · rename_i hc
      simp only [Bool.and_eq_true] at hc
      simp only [Option.bind_eq_some, Option.map_eq_some'] at h
      obtain ⟨⟨mo0, rest3⟩, hmd, d0, hd, heq⟩ := h
      simp only [Prod.mk.injEq] at heq
      have hda := dVal_le_9 hc.1.1.2
      have hdb := dVal_le_9 hc.1.2
      have hmo := parseMD_le hmd
      have hdd := parseDay_le hd
      omega
    · exact absurd h (by simp)

theorem p3At_bounds {s : List Char} {y mo d : Nat}
    (h : p3At s = some (y, mo, d)) : 2000 ≤ y ∧ y ≤ 2099 ∧ mo ≤ 99 ∧ d ≤ 99 := by
  rcases s with _ | ⟨c1, _ | ⟨c2, _ | ⟨a, _ | ⟨b, _ | ⟨c, rest2⟩⟩⟩⟩⟩ <;>
    simp only [p3At] at h
  · exact absurd h (by simp)
  · exact absurd h (by simp)
  · exact absurd h (by simp)
  · exact absurd h (by simp)
  · exact absurd h (by simp)
  · split at h
    · rename_i hc
      simp only [Bool.and_eq_true] at hc
      simp only [Option.bind_eq_some, Option.map_eq_some'] at h
      obtain ⟨⟨mo0, rest3⟩, hmd, d0, hd, heq⟩ := h
      simp only [Prod.mk.injEq] at heq
      have hda := dVal_le_9 hc.1.1.2
      have hdb := dVal_le_9 hc.1.2
      have hmo := parseMD_le hmd
      have hdd := parseDay_le hd
      omega
    · exact absurd h (by simp)

theorem p4At_bounds {s : List Char} {y mo d : Nat}
    (h : p4At s = some (y, mo, d)) : 2018 ≤ y ∧ y ≤ 2117 ∧ mo ≤ 99 ∧ d ≤ 99 := by
  rcases s with _ | ⟨c1, _ | ⟨c2, rest⟩⟩ <;> simp only [p4At] at h
  · exact absurd h (by simp)
  · exact absurd h (by simp)
  · split at h
    · simp only [Option.bind_eq_some, Option.map_eq_some'] at h
      obtain ⟨⟨n, rest2⟩, hn, ⟨mo0, rest3⟩, hm, d0, hd, heq⟩ := h
      simp only [Prod.mk.injEq] at heq
      have h1 := parseNum2Then_le hn
      have h2 := parseNum2Then_le hm
      have h3 := parseDay_le hd
      omega
    · exact absurd h (by simp)

theorem searchDP_imp {pAt : List Char → Option (Nat × Nat × Nat)}
    {P : Nat × Nat × Nat → Prop} (hp : ∀ s r, pAt s = some r → P r) :
    ∀ t r, searchDP pAt t = some r → P r := by
  intro t
  induction t with
  | nil => intro r h; exact absurd h (by simp [searchDP])
  | cons c tail ih =>
      intro r h
      simp only [searchDP] at h
      cases hc : pAt (c :: tail) with
      | some r0 =>
          rw [hc] at h
          injection h with h
          exact h ▸ hp _ _ hc
      | none =>
          rw [hc] at h
          exact ih r h

theorem digCh_isDigit {k : Nat} (h : k ≤ 9) : (digCh k).isDigit = true := by
  interval_cases k <;> decide

theorem pad4_spec {n : Nat} (h : n ≤ 9999) :
    (pad4 n).length = 4 ∧ (pad4 n).all Char.isDigit = true := by
  unfold pad4
  rw [if_pos (by omega)]
  refine ⟨rfl, ?_⟩
  simp only [List.all_cons, List.all_nil, Bool.and_eq_true]
  refine ⟨digCh_isDigit (by omega), digCh_isDigit ?_, digCh_isDigit ?_,
    digCh_isDigit ?_, trivial⟩ <;> omega

theorem pad2_spec {n : Nat} (h : n ≤ 99) :
    (pad2 n).length = 2 ∧ (pad2 n).all Char.isDigit = true := by
  unfold pad2
  rw [if_pos (by omega)]
  refine ⟨rfl, ?_⟩
  simp only [List.all_cons, List.all_nil, Bool.and_eq_true]
  refine ⟨digCh_isDigit (by omega), digCh_isDigit ?_, trivial⟩
  omega

theorem pad4_take2 {n : Nat} (h1 : 2000 ≤ n) (h2 : n ≤ 2099) :
    (pad4 n).take 2 = ['2', '0'] := by
  have e1 : n / 1000 = 2 := by omega
  have e2 : n / 100 % 10 = 0 := by omega
  unfold pad4
  rw [if_pos (by omega : n < 10000), e1, e2]
  show [digCh 2, digCh 0] = ['2', '0']
  decide

theorem fmtDate_spec {y mo d : Nat} (hy : y ≤ 9999) (hmo : mo ≤ 99) (hd : d ≤ 99) :
    ((fmtDate y mo d).asString).length = 8 ∧
    ((fmtDate y mo d).asString).data.all Char.isDigit = true := by
  have h4 := pad4_spec hy
  have h2 := pad2_spec hmo
  have h2b := pad2_spec hd
  constructor
  · show (fmtDate y mo d).length = 8
    unfold fmtDate
    simp [List.length_append, h4.1, h2.1, h2b.1]
  · show (fmtDate y mo d).all Char.isDigit = true
    unfold fmtDate
    simp [List.all_append, h4.2, h2.2, h2b.2]

theorem extract_date_shape :
    ∀ (t s : String), extract_date t = some s →
      s.length = 8 ∧ s.data.all Char.isDigit = true := by
  intro t s h
  unfold extract_date at h
  cases h1 : searchDP p1At (normalize_text_list t.data) with
  | some r =>
      obtain ⟨y, mo, d⟩ := r
      simp only [h1] at h
      injection h with h
      obtain ⟨b1, b2, b3, b4⟩ := searchDP_imp (fun s r hr => p1At_bounds hr) _ _ h1
      exact h ▸ fmtDate_spec (by omega) b3 b4
  | none =>
    simp only [h1] at h
    cases h2 : searchDP p2At (normalize_text_list t.data) with
    | some r =>
        obtain ⟨y, mo, d⟩ := r
        simp only [h2] at h
        injection h with h
        obtain ⟨b1, b2, b3, b4⟩ := searchDP_imp (fun s r hr => p2At_bounds hr) _ _ h2
        exact h ▸ fmtDate_spec (by omega) b3 b4
    | none =>
      simp only [h2] at h
      cases h3 : searchDP p3At (normalize_text_list t.data) with
      | some r =>
          obtain ⟨y, mo, d⟩ := r
          simp only [h3] at h
          injection h with h
          obtain ⟨b1, b2, b3, b4⟩ := searchDP_imp (fun s r hr => p3At_bounds hr) _ _ h3
          exact h ▸ fmtDate_spec (by omega) b3 b4
      | none =>
        simp only [h3] at h
        cases h4 : searchDP p4At (normalize_text_list t.data) with
        | some r =>
            obtain ⟨y, mo, d⟩ := r
            simp only [h4] at h
            injection h with h
            obtain ⟨b1, b2, b3, b4⟩ := searchDP_imp (fun s r hr => p4At_bounds hr) _ _ h4
            exact h ▸ fmtDate_spec (by omega) b3 b4
        | none => simp only [h4] at h; exact absurd h (by simp)

theorem extract_date_year_20_or_era :
    ∀ (t s : String), extract_date t = some s →
      s.data.take 2 = ['2', '0'] ∨
      (searchDP p4At (normalize_text_list t.data)).isSome = true := by
  intro t s h
  unfold extract_date at h
  cases h1 : searchDP p1At (normalize_text_list t.data) with
  | some r =>
      obtain ⟨y, mo, d⟩ := r
      simp only [h1] at h
      injection h with h
      obtain ⟨b1, b2, b3, b4⟩ := searchDP_imp (fun s r hr => p1At_bounds hr) _ _ h1
      have hy : 2000 ≤ y := b1
      have hy2 : y ≤ 2099 := b2
      left
      rw [← h]
      show (fmtDate y mo d).take 2 = _
      unfold fmtDate
      have hp : (pad4 y).length = 4 := (pad4_spec (by omega : y ≤ 9999)).1
      rw [List.take_append_of_le_length (by rw [List.length_append, hp]; omega),
          List.take_append_of_le_length (by rw [hp]; omega)]
      exact pad4_take2 hy hy2
  | none =>
    simp only [h1] at h
    cases h2 : searchDP p2At (normalize_text_list t.data) with
    | some r =>
        obtain ⟨y, mo, d⟩ := r
        simp only [h2] at h
        injection h with h
        obtain ⟨b1, b2, b3, b4⟩ := searchDP_imp (fun s r hr => p2At_bounds hr) _ _ h2
        have hy : 2000 ≤ y := b1
        have hy2 : y ≤ 2099 := b2
        left
        rw [← h]
        show (fmtDate y mo d).take 2 = _
        unfold fmtDate
        have hp : (pad4 y).length = 4 := (pad4_spec (by omega : y ≤ 9999)).1
        rw [List.take_append_of_le_length (by rw [List.length_append, hp]; omega),
            List.take_append_of_le_length (by rw [hp]; omega)]
        exact pad4_take2 hy hy2
    | none =>
      simp only [h2] at h
      cases h3 : searchDP p3At (normalize_text_list t.data) with
      | some r =>
          obtain ⟨y, mo, d⟩ := r
          simp only [h3] at h
          injection h with h
          obtain ⟨b1, b2, b3, b4⟩ := searchDP_imp (fun s r hr => p3At_bounds hr) _ _ h3
          have hy : 2000 ≤ y := b1
          have hy2 : y ≤ 2099 := b2
          left
          rw [← h]
          show (fmtDate y mo d).take 2 = _
          unfold fmtDate
          have hp : (pad4 y).length = 4 := (pad4_spec (by omega : y ≤ 9999)).1
          rw [List.take_append_of_le_length (by rw [List.length_append, hp]; omega),
              List.take_append_of_le_length (by rw [hp]; omega)]
          exact pad4_take2 hy hy2
      | none =>
        simp only [h3] at h
        cases h4 : searchDP p4At (normalize_text_list t.data) with
        | some r => right; rfl
        | none => simp only [h4] at h; exact absurd h (by simp)

/-! ## Claim C7 — date extractor output -/

/-- C7: every extracted date is an eight-character all-digit `YYYYMMDD`
string; the four `DATE_PATTERNS` are tried in priority order over the
whole text (the ISO-like pattern wins even when an era date occurs
earlier in the text); and a Reiwa year `n` is converted by the fixed
offset `2018 + n` (checked here for `n` from 1 to 12). -/
theorem C7_extract_date_contract :
    (∀ t s : String, extract_date t = some s →
      s.length = 8 ∧ s.data.all Char.isDigit = true) ∧
    extract_date "令和6年1月2日 2024年3月5日" = some "20240305" ∧
    (∀ n ∈ List.range 12,
      extract_date ("令和" ++ (Nat.repr (n+1)) ++ "年1月15日")
        = some ((Nat.repr (2018+(n+1))) ++ "0115")) :=
  ⟨extract_date_shape, by decide, by decide⟩

/-- C7 witness: the theorem applied at the concrete text `2024/1/2`,
whose extracted date is `20240102`. -/
theorem C7_witness :
    ("20240102" : String).length = 8 ∧
    ("20240102" : String).data.all Char.isDigit = true :=
  C7_extract_date_contract.1 "2024/1/2" "20240102" (by decide)

/-! ## Claim C10 — year window and recognized eras -/

/-- C10: a non-era extracted date always has a year beginning `20`
(2000–2099), and the only era pattern is the Reiwa one — dates written in
other eras (平成, 昭和) or with other numeric years are never
extracted. -/
theorem C10_year_window :
    (∀ t s : String, extract_date t = some s →
      s.data.take 2 = ['2', '0'] ∨
      (searchDP p4At (normalize_text_list t.data)).isSome = true) ∧
    extract_date "1999年1月2日" = none ∧
    extract_date "平成31年1月2日" = none ∧
    extract_date "昭和60年1月2日" = none :=
  ⟨extract_date_year_20_or_era, by decide, by decide, by decide⟩

/-- C10 witness: the theorem applied at the concrete text
`2024年3月5日`. -/
theorem C10_witness :
    ("20240305" : String).data.take 2 = ['2', '0'] ∨
    (searchDP p4At (normalize_text_list ("2024年3月5日" : String).data)).isSome = true :=
  C10_year_window.1 "2024年3月5日" "20240305" (by decide)

/-! ## Claim C2 — pipeline determinism -/

/-- C2 counterexample: the pipeline is not a function of its input alone —
when no date is extracted, `_tokens` falls back to the build-time clock
(`datetime.now()`, here the explicit `now` parameter), so two runs on the
identical empty input but different clock values yield different
filenames. -/
theorem C2_counterexample :
    pipeline "" ".pdf" "20240101" ≠ pipeline "" ".pdf" "20250101" := by
  decide

theorem extract_date_not_isEmpty {t s : String} (h : extract_date t = some s) :
    s.data.isEmpty = false := by
  have hl : s.data.length = 8 := (extract_date_shape t s h).1
  cases hd : s.data with
  | nil => rw [hd] at hl; simp at hl
  | cons a l => rfl

theorem build_filename_date_indep (cat : String) (p doc : Option String)
    (ext text : String) (d : String) (hd : d.data.isEmpty = false)
    (now₁ now₂ : String) :
    build_filename cat p doc (some d) ext text now₁
      = build_filename cat p doc (some d) ext text now₂ := by
  simp [build_filename, buildBase, _tokens, orDefault, hd]

/-- C2 as amended: the classifier and every extractor are pure functions
of the input text (independent of the clock), and the filename is too
whenever a document date was extracted; only a missing date makes the
filename depend on the build-time clock. -/
theorem C2_pipeline_deterministic :
    ∀ text ext now₁ now₂ : String,
      (pipeline text ext now₁).category = (pipeline text ext now₂).category ∧
      (pipeline text ext now₁).patient = (pipeline text ext now₂).patient ∧
      (pipeline text ext now₁).doctor = (pipeline text ext now₂).doctor ∧
      (pipeline text ext now₁).date = (pipeline text ext now₂).date ∧
      (extract_date text ≠ none →
        pipeline text ext now₁ = pipeline text ext now₂) := by
  intro text ext now₁ now₂
  refine ⟨rfl, rfl, rfl, rfl, ?_⟩
  intro h
  obtain ⟨d, hd⟩ := Option.ne_none_iff_exists.mp h
  unfold pipeline
  simp only [← hd]
  rw [build_filename_date_indep _ _ _ _ _ _ (extract_date_not_isEmpty hd.symm)]

/-- C2 witness: on the concrete text `2024/1/2` (whose date is extracted)
the whole pipeline result is clock-independent. -/
theorem C2_witness :
    pipeline "2024/1/2" ".pdf" "20240101" = pipeline "2024/1/2" ".pdf" "20250101" :=
  (C2_pipeline_deterministic "2024/1/2" ".pdf" "20240101" "20250101").2.2.2.2 (by decide)

/-! ## Claim C9 — filename uniquification -/

theorem uniquifyLoop_first (ex : String → String → Bool) (folder : String)
    (base ext : List Char) :
    ∀ n i m, i ≤ m → m < i + n →
      (∀ j, i ≤ j → j < m → ex folder (versionedName base ext j) = true) →
      ex folder (versionedName base ext m) = false →
      uniquifyLoop ex folder base ext n i = some (versionedName base ext m) := by
  intro n
  induction n with
  | zero => intro i m h1 h2 _ _; omega
  | succ n ih =>
      intro i m h1 h2 hexist hfree
      unfold uniquifyLoop
      by_cases hi : i = m
      · subst hi
        simp [hfree]
      · have hlt : i < m := by omega
        simp only [hexist i (by omega) hlt, if_true]
        exact ih (i+1) m (by omega) (by omega)
          (fun j hj1 hj2 => hexist j (by omega) hj2) hfree

theorem uniquifyLoop_exhaust (ex : String → String → Bool) (folder : String)
    (base ext : List Char) :
    ∀ n i, (∀ j, i ≤ j → j < i + n → ex folder (versionedName base ext j) = true) →
      uniquifyLoop ex folder base ext n i = none := by
  intro n
  induction n with
  | zero => intro i _; rfl
  | succ n ih =>
      intro i hall
      unfold uniquifyLoop
      simp only [hall i (by omega) (by omega), if_true]
      exact ih (i+1) (fun j hj1 hj2 => hall j (by omega) (by omega))

/-- C9: filename uniquification is a total function of the existence
predicate: it returns the name unchanged when it does not exist; otherwise
it returns the first free versioned candidate `base_v{i}{ext}` for `i`
from 2 to 49; and when every versioned candidate exists it appends the
opaque suffix and returns without any further existence check. -/
theorem C9_uniquify_contract :
    ∀ (ex : String → String → Bool) (folder fn u : String),
      (ex folder fn = false → uniquify_filename ex folder fn u = fn) ∧
      (∀ i, 2 ≤ i → i < 50 → ex folder fn = true →
        (∀ j, 2 ≤ j → j < i →
          ex folder (versionedName (uniqBase fn).1 (uniqBase fn).2 j) = true) →
        ex folder (versionedName (uniqBase fn).1 (uniqBase fn).2 i) = false →
        uniquify_filename ex folder fn u
          = versionedName (uniqBase fn).1 (uniqBase fn).2 i) ∧
      (ex folder fn = true →
        (∀ j, 2 ≤ j → j < 50 →
          ex folder (versionedName (uniqBase fn).1 (uniqBase fn).2 j) = true) →
        uniquify_filename ex folder fn u
          = ((uniqBase fn).1 ++ "_".data ++ u.data ++ (uniqBase fn).2).asString) := by
  intro ex folder fn u
  refine ⟨?_, ?_, ?_⟩
  · intro h
    unfold uniquify_filename
    rw [h]
    simp
  · intro i h2 h50 hex hbusy hfree
    unfold uniquify_filename
    rw [hex]
    simp only [if_true]
    rw [uniquifyLoop_first ex folder (uniqBase fn).1 (uniqBase fn).2 48 2 i
      (by omega) (by omega) (fun j hj1 hj2 => hbusy j hj1 hj2) hfree]
  · intro hex hall
    unfold uniquify_filename
    rw [hex]
    simp only [if_true]
    rw [uniquifyLoop_exhaust ex folder (uniqBase fn).1 (uniqBase fn).2 48 2
      (fun j hj1 hj2 => hall j hj1 (by omega))]

/-- C9 witness: with an existence predicate under which only `a.txt`
exists, uniquification of `a.txt` returns the first versioned candidate
`a_v2.txt`. -/
theorem C9_witness :
    uniquify_filename (fun _ n => n == "a.txt") "/folder" "a.txt" "ab12cd" = "a_v2.txt" := by
  have h := (C9_uniquify_contract (fun _ n => n == "a.txt") "/folder" "a.txt" "ab12cd").2.1
    2 (by omega) (by omega) (by decide)
    (fun j hj1 hj2 => absurd hj2 (by omega))
    (by decide)
  rw [h]
  decide

/-! ## Claim C6 — filename safety lemmas -/

theorem all_drop {l : List Char} {q : Char → Bool} (n : Nat) (h : l.all q = true) :
    (l.drop n).all q = true :=
  all_of_sublist (List.drop_sublist n l) h

theorem sanitize_eq (s : List Char) :
    _sanitize_filename s =
      (if (stripWs (collapseRunsAux isBadFn '_' false s)).isEmpty = true
        then "不明".data else stripWs (collapseRunsAux isBadFn '_' false s)) := rfl

theorem buildBase_eq (cat : String) (patient doctor : Option String)
    (date_str : Option String) (text now : String) :
    buildBase cat patient doctor date_str text now =
      (if (_compact (applyTemplate cat (_tokens text patient doctor date_str now))).length
          > MAX_BASENAME then
        rstripWs (rstripChars "_ ".data
          ((_compact (applyTemplate cat (_tokens text patient doctor date_str now))).take
            MAX_BASENAME))
      else _compact (applyTemplate cat (_tokens text patient doctor date_str now))) := rfl

theorem collapseRuns_all_of_all {p q : Char → Bool} {r : Char} (hr : q r = true) :
    ∀ (b : Bool) (l : List Char), l.all q = true →
      (collapseRunsAux p r b l).all q = true := by
  intro b l
  induction l generalizing b with
  | nil => intro _; rfl
  | cons c rest ih =>
      intro h
      simp only [List.all_cons, Bool.and_eq_true] at h
      simp only [collapseRunsAux]
      split
      · cases b <;> simp [ih _ h.2, hr]
      · simp [ih _ h.2, h.1]

theorem collapseBad_all_okFn :
    ∀ (b : Bool) (l : List Char), (collapseRunsAux isBadFn '_' b l).all okFn = true := by
  intro b l
  induction l generalizing b with
  | nil => rfl
  | cons c rest ih =>
      simp only [collapseRunsAux]
      split
      · cases b <;> simp [ih, okFn, isBadFn]
      · rename_i hc
        simp [ih, okFn, hc]

theorem sanitize_all_okFn (s : List Char) :
    (_sanitize_filename s).all okFn = true := by
  rw [sanitize_eq]
  split
  · decide
  · exact all_stripWs (collapseBad_all_okFn false s)

theorem sanitize_ne_nil (s : List Char) : _sanitize_filename s ≠ [] := by
  rw [sanitize_eq]
  split
  · decide
  · rename_i h
    simpa using h

theorem compactPass3_all {q : Char → Bool} (hsp : q ' ' = true) :
    ∀ (n : Nat) (l : List Char), l.length ≤ n → l.all q = true →
      ∀ b, (compactPass3 b l).all q = true := by
  intro n
  induction n with
  | zero =>
      intro l hl _ b
      cases l with
      | nil => cases b <;> rfl
      | cons c rest => simp at hl
  | succ n ih =>
      intro l hl hall b
      cases l with
      | nil => cases b <;> rfl
      | cons c rest =>
          simp only [List.all_cons, Bool.and_eq_true] at hall
          simp only [List.length_cons] at hl
          cases b with
          | true =>
              simp only [compactPass3]
              split
              · exact ih rest (by omega) hall.2 true
              · simp only [List.all_cons, Bool.and_eq_true]
                exact ⟨hall.1, ih rest (by omega) hall.2 false⟩
          | false =>
              cases rest with
              | nil =>
                  simp only [compactPass3, List.all_cons, List.all_nil, Bool.and_eq_true]
                  exact ⟨hall.1, trivial⟩
              | cons d rest2 =>
                  simp only [List.all_cons, Bool.and_eq_true] at hall
                  simp only [List.length_cons] at hl
                  simp only [compactPass3]
                  split
                  · split
                    · simp only [List.all_cons, Bool.and_eq_true]
                      exact ⟨hsp, ih rest2 (by omega) hall.2.2 true⟩
                    · simp only [List.all_cons, Bool.and_eq_true]
                      exact ⟨hall.1, hall.2.1, ih rest2 (by omega) hall.2.2 false⟩
                  · simp only [List.all_cons, Bool.and_eq_true]
                    exact ⟨hall.1,
                      ih (d :: rest2) (by simp; omega) (by simp [hall.2.1, hall.2.2]) false⟩

theorem compact_all {l : List Char} (h : l.all okFn = true) :
    (_compact l).all okFn = true := by
  unfold _compact
  have h1 : (collapseRunsAux isSpFW ' ' false l).all okFn = true :=
    collapseRuns_all_of_all (by decide) false l h
  have h2 := all_stripWs h1
  have h3 : (collapseRunsAux (fun c => c = '_') '_' false
      (stripWs (collapseRunsAux isSpFW ' ' false l))).all okFn = true :=
    collapseRuns_all_of_all (by decide) false _ h2
  exact compactPass3_all (by decide) _ _ (Nat.le_refl _) h3 false

theorem orDefault_all_okFn {x : Option String} {d : List Char}
    (hx : ∀ s, x = some s → s.data.all okFn = true) (hd : d.all okFn = true) :
    (orDefault x d).all okFn = true := by
  cases x with
  | none => exact hd
  | some s =>
      simp only [orDefault]
      by_cases he : s.data.isEmpty = true
      · rw [if_pos he]; exact hd
      · rw [if_neg he]; exact hx s rfl

theorem ym_all_okFn {dt : List Char} (h : dt.all okFn = true) :
    (_ym_from_dt dt).all okFn = true := by
  unfold _ym_from_dt
  simp only [List.all_append, Bool.and_eq_true]
  exact ⟨⟨⟨all_take 4 h, by decide⟩, all_take 2 (all_drop 4 h)⟩, by decide⟩

theorem toks_all_okFn (text : String) (patient doctor : Option String)
    (date_str : Option String) (now : String)
    (hdate : ∀ d, date_str = some d → d.data.all okFn = true)
    (hnow : now.data.all okFn = true) :
    ((_tokens text patient doctor date_str now).patient.all okFn = true) ∧
    ((_tokens text patient doctor date_str now).doctor.all okFn = true) ∧
    ((_tokens text patient doctor date_str now).date.all okFn = true) ∧
    ((_tokens text patient doctor date_str now).ym.all okFn = true) ∧
    ((_tokens text patient doctor date_str now).client.all okFn = true) ∧
    ((_tokens text patient doctor date_str now).client_dept.all okFn = true) ∧
    ((_tokens text patient doctor date_str now).clinic.all okFn = true) ∧
    ((_tokens text patient doctor date_str now).staff.all okFn = true) ∧
    ((_tokens text patient doctor date_str now).invoice_clinic.all okFn = true) := by
  have hdt : (orDefault date_str now.data).all okFn = true :=
    orDefault_all_okFn hdate hnow
  refine ⟨sanitize_all_okFn _, sanitize_all_okFn _, hdt, ym_all_okFn hdt,
    sanitize_all_okFn _, sanitize_all_okFn _, sanitize_all_okFn _,
    sanitize_all_okFn _, sanitize_all_okFn _⟩

theorem applyTemplate_all_okFn (cat : String) (tk : Toks)
    (hcat : cat.data.all okFn = true)
    (h1 : tk.patient.all okFn = true) (h2 : tk.doctor.all okFn = true)
    (h3 : tk.date.all okFn = true) (h4 : tk.ym.all okFn = true)
    (h5 : tk.client.all okFn = true) (h6 : tk.client_dept.all okFn = true)
    (h7 : tk.clinic.all okFn = true) (h8 : tk.staff.all okFn = true)
    (h9 : tk.invoice_clinic.all okFn = true) :
    (applyTemplate cat tk).all okFn = true := by
  unfold applyTemplate
  split_ifs <;>
    simp [List.all_append, h1, h2, h3, h4, h5, h6, h7, h8, h9, hcat] <;>
    decide

theorem rstrip_length_le (bad l : List Char) :
    (rstripChars bad l).length ≤ l.length := by
  unfold rstripChars
  calc (l.reverse.dropWhile (bad.contains ·)).reverse.length
      = (l.reverse.dropWhile (bad.contains ·)).length := by simp
    _ ≤ l.reverse.length := (List.dropWhile_sublist _).length_le
    _ = l.length := by simp

theorem rstripWs_length_le (l : List Char) : (rstripWs l).length ≤ l.length := by
  unfold rstripWs
  calc (l.reverse.dropWhile isPyWs).reverse.length
      = (l.reverse.dropWhile isPyWs).length := by simp
    _ ≤ l.reverse.length := (List.dropWhile_sublist _).length_le
    _ = l.length := by simp

theorem buildBase_all_and_len (cat : String) (patient doctor : Option String)
    (date_str : Option String) (text now : String)
    (hdate : ∀ d, date_str = some d → d.data.all okFn = true)
    (hnow : now.data.all okFn = true)
    (hcat : cat.data.all okFn = true) :
    (buildBase cat patient doctor date_str text now).all okFn = true ∧
    (buildBase cat patient doctor date_str text now).length ≤ MAX_BASENAME := by
  obtain ⟨t1, t2, t3, t4, t5, t6, t7, t8, t9⟩ :=
    toks_all_okFn text patient doctor date_str now hdate hnow
  have hname : (_compact (applyTemplate cat
      (_tokens text patient doctor date_str now))).all okFn = true :=
    compact_all (applyTemplate_all_okFn cat _ hcat t1 t2 t3 t4 t5 t6 t7 t8 t9)
  rw [buildBase_eq]
  split
  · constructor
    · exact all_rstripWs (all_rstripChars (all_take _ hname))
    · calc (rstripWs (rstripChars "_ ".data
            ((_compact (applyTemplate cat (_tokens text patient doctor date_str now))).take
              MAX_BASENAME))).length
          ≤ (rstripChars "_ ".data
            ((_compact (applyTemplate cat (_tokens text patient doctor date_str now))).take
              MAX_BASENAME)).length := rstripWs_length_le _
        _ ≤ ((_compact (applyTemplate cat (_tokens text patient doctor date_str now))).take
              MAX_BASENAME).length := rstrip_length_le _ _
        _ ≤ MAX_BASENAME := by simp
  · rename_i hle
    exact ⟨hname, by omega⟩

theorem collapseRuns_head {p : Char → Bool} {r c : Char} {l : List Char}
    (hc : p c = false) :
    collapseRunsAux p r false (c :: l) = c :: collapseRunsAux p r false l := by
  simp [collapseRunsAux, hc]

theorem compactPass3_head {c : Char} {l : List Char} (hc : isSpUs c = false) :
    compactPass3 false (c :: l) = c :: compactPass3 false l := by
  cases l with
  | nil => simp [compactPass3, hc]
  | cons d rest => simp [compactPass3, hc]

theorem solidC_not_ws {c : Char} (h : solidC c = true) : isPyWs c = false := by
  unfold solidC at h
  simp only [Bool.and_eq_true, Bool.not_eq_true'] at h
  exact h.1

theorem solidC_not_us {c : Char} (h : solidC c = true) : c ≠ '_' := by
  unfold solidC at h
  simp only [Bool.and_eq_true, Bool.not_eq_true'] at h
  intro hc
  rw [hc] at h
  simpa using h.2

theorem solidC_not_spfw {c : Char} (h : solidC c = true) : isSpFW c = false := by
  have hw := solidC_not_ws h
  simp only [isSpFW, Bool.or_eq_false_iff, decide_eq_false_iff_not]
  constructor
  · intro hc; subst hc; exact absurd hw (by decide)
  · intro hc; subst hc; exact absurd hw (by decide)

theorem solidC_not_spus {c : Char} (h : solidC c = true) : isSpUs c = false := by
  have hw := solidC_not_ws h
  have hu := solidC_not_us h
  simp only [isSpUs, Bool.or_eq_false_iff, decide_eq_false_iff_not]
  constructor
  · intro hc; subst hc; exact absurd hw (by decide)
  · exact hu

theorem compact_head {c : Char} {l : List Char} (hc : solidC c = true) :
    ∃ l2, _compact (c :: l) = c :: l2 := by
  unfold _compact
  rw [collapseRuns_head (solidC_not_spfw hc)]
  obtain ⟨y, hy⟩ := stripWs_cons_head (collapseRunsAux isSpFW ' ' false l)
    (solidC_not_ws hc)
  rw [hy]
  rw [collapseRuns_head (by simpa using solidC_not_us hc)]
  rw [compactPass3_head (solidC_not_spus hc)]
  exact ⟨_, rfl⟩

theorem rstripChars_cons_head {bad : List Char} {c : Char} (l : List Char)
    (hc : bad.contains c = false) : ∃ y, rstripChars bad (c :: l) = c :: y := by
  unfold rstripChars
  have : (c :: l).reverse = l.reverse ++ [c] := by simp
  rw [this]
  obtain ⟨y, hy⟩ := dropWhile_append_last l.reverse c hc
  rw [hy]
  exact ⟨y.reverse, by simp⟩

theorem trimmed_ne_nil {name : List Char} {c : Char} {rest : List Char}
    (h : name = c :: rest) (hc : solidC c = true) :
    (if name.length > MAX_BASENAME then
      rstripWs (rstripChars "_ ".data (name.take MAX_BASENAME)) else name) ≠ [] := by
  subst h
  split
  · have htake : (c :: rest).take MAX_BASENAME = c :: rest.take 79 := rfl
    rw [htake]
    have hcontains : ("_ ".data).contains c = false := by
      have h1 := solidC_not_us hc
      have h2 := solidC_not_spus hc
      simp only [isSpUs, Bool.or_eq_false_iff, decide_eq_false_iff_not] at h2
      show (['_', ' '].contains c) = false
      simp [List.contains, h1, h2.1]
    obtain ⟨y, hy⟩ := rstripChars_cons_head (rest.take 79) hcontains
    rw [hy]
    exact rstripWs_cons_ne_nil y (solidC_not_ws hc)
  · simp

theorem buildBase_ne_nil (cat : String) (patient doctor : Option String)
    (date_str : Option String) (text now : String) {c : Char} {rest : List Char}
    (happ : applyTemplate cat (_tokens text patient doctor date_str now) = c :: rest)
    (hc : solidC c = true) :
    buildBase cat patient doctor date_str text now ≠ [] := by
  rw [buildBase_eq, happ]
  obtain ⟨l2, hl2⟩ := compact_head hc
  rw [hl2]
  exact trimmed_ne_nil rfl hc


/-! ## Claim C6 — classifier range and the filename-safety theorem -/

theorem foldl_step_mem (rest : List (String × Nat)) :
    ∀ p, rest.foldl (fun acc q => if q.2 > acc.2 then q else acc) p ∈ p :: rest := by
  induction rest with
  | nil => intro p; simp
  | cons q rest ih =>
      intro p
      rw [List.foldl_cons]
      by_cases hq : q.2 > p.2
      · rw [if_pos hq]
        exact List.mem_cons_of_mem p (ih q)
      · rw [if_neg hq]
        have h := ih p
        rcases List.mem_cons.mp h with h1 | h1
        · exact List.mem_cons.mpr (Or.inl h1)
        · exact List.mem_cons_of_mem p (List.mem_cons_of_mem q h1)

theorem bestOf_mem (l : List (String × Nat)) (hl : l ≠ []) : bestOf l ∈ l := by
  match l with
  | [] => exact absurd rfl hl
  | p :: rest => exact foldl_step_mem rest p

theorem scoresFor_keys (t : List Char) :
    (scoresFor t).map Prod.fst =
      ["同意書", "保険証", "治療報告書", "患者リスト", "請求書", "実績"] := rfl

theorem detect_category_range (t : String) :
    detect_category t = "患者リスト" ∨ detect_category t = "治療報告書" ∨
    detect_category t = "同意書" ∨ detect_category t = "保険証" ∨
    detect_category t = "請求書" ∨ detect_category t = "実績" ∨
    detect_category t = "その他" := by
  simp only [detect_category, detect_category_list]
  split_ifs with h1 h2 h3 h4 h5 h6
  · exact Or.inl rfl
  · exact Or.inr (Or.inl rfl)
  · exact Or.inl rfl
  · exact Or.inr (Or.inl rfl)
  · exact Or.inr (Or.inl rfl)
  · have hm : bestOf (scoresFor (normalize_text_list t.data))
        ∈ scoresFor (normalize_text_list t.data) :=
      bestOf_mem _ (by simp [scoresFor, KEYWORDS])
    have hf := List.mem_map_of_mem Prod.fst hm
    rw [scoresFor_keys] at hf
    simp only [List.mem_cons, List.not_mem_nil, or_false] at hf
    rcases hf with h|h|h|h|h|h <;> simp [h]
  · exact Or.inr (Or.inr (Or.inr (Or.inr (Or.inr (Or.inr rfl)))))

set_option maxRecDepth 4096 in
/-- C6 counterexample: the claim fails in two ways.  The `date` token is
substituted unsanitized, so a date string containing `/` puts an illegal
character into the produced filename; and for the treatment-report
template a whitespace-laden patient value can make the truncated base name
empty, so with an empty extension the filename itself is empty. -/
theorem C6_counterexample :
    ((build_filename "同意書" none none (some "2024/01/02") ".pdf" "" "20240101").data.any
        isBadFn) = true ∧
    build_filename "治療報告書"
        (some ("_ " ++ (List.replicate 100 '	').asString ++ "あ")) none none ""
        "" "20240101" = "" := by
  constructor
  · decide
  · decide

theorem C6_core (cat : String) (patient doctor : Option String)
    (date_str : Option String) (ext text now : String)
    (hdate : ∀ d, date_str = some d → d.data.all okFn = true)
    (hnow : now.data.all okFn = true)
    (hcatok : cat.data.all okFn = true)
    (hne : cat ≠ "治療報告書" → buildBase cat patient doctor date_str text now ≠ []) :
    (buildBase cat patient doctor date_str text now).all okFn = true ∧
    (buildBase cat patient doctor date_str text now).length ≤ MAX_BASENAME ∧
    (build_filename cat patient doctor date_str ext text now).data
      = buildBase cat patient doctor date_str text now ++ ext.data ∧
    (build_filename cat patient doctor date_str ext text now).length
      ≤ MAX_BASENAME + ext.length ∧
    (cat ≠ "治療報告書" → buildBase cat patient doctor date_str text now ≠ []) := by
  obtain ⟨hall, hlen⟩ :=
    buildBase_all_and_len cat patient doctor date_str text now hdate hnow hcatok
  refine ⟨hall, hlen, rfl, ?_, hne⟩
  have he : (build_filename cat patient doctor date_str ext text now).length
      = (buildBase cat patient doctor date_str text now).length + ext.data.length := by
    show (buildBase cat patient doctor date_str text now ++ ext.data).length = _
    exact List.length_append _ _
  have he2 : ext.length = ext.data.length := rfl
  omega

/-- C6 as amended: for every category the classifier can produce, any
field values, any date and clock strings free of the illegal characters,
any extension and any raw text, the produced filename is the base name
followed by the extension, where the base name contains none of
`\ / : * ? " < > |` and is at most `MAX_BASENAME` (80) characters long, so
the whole filename is at most 80 plus the extension length; and for every
category except the treatment report (whose template starts with the
patient token rather than a literal) the base name is also non-empty. -/
theorem C6_filename_safety :
    ∀ (t0 : String) (patient doctor : Option String) (date_str : Option String)
      (ext text now : String),
      (∀ d, date_str = some d → d.data.all okFn = true) →
      now.data.all okFn = true →
      (buildBase (detect_category t0) patient doctor date_str text now).all okFn = true ∧
      (buildBase (detect_category t0) patient doctor date_str text now).length
        ≤ MAX_BASENAME ∧
      (build_filename (detect_category t0) patient doctor date_str ext text now).data
        = buildBase (detect_category t0) patient doctor date_str text now ++ ext.data ∧
      (build_filename (detect_category t0) patient doctor date_str ext text now).length
        ≤ MAX_BASENAME + ext.length ∧
      (detect_category t0 ≠ "治療報告書" →
        buildBase (detect_category t0) patient doctor date_str text now ≠ []) := by
  intro t0 patient doctor date_str ext text now hdate hnow
  rcases detect_category_range t0 with h|h|h|h|h|h|h <;> rw [h]
  · exact C6_core _ patient doctor date_str ext text now hdate hnow (by decide)
      (fun _ => buildBase_ne_nil _ patient doctor date_str text now rfl (by decide))
  · exact C6_core _ patient doctor date_str ext text now hdate hnow (by decide)
      (fun hn => absurd rfl hn)
  · exact C6_core _ patient doctor date_str ext text now hdate hnow (by decide)
      (fun _ => buildBase_ne_nil _ patient doctor date_str text now rfl (by decide))
  · exact C6_core _ patient doctor date_str ext text now hdate hnow (by decide)
      (fun _ => buildBase_ne_nil _ patient doctor date_str text now rfl (by decide))
  · exact C6_core _ patient doctor date_str ext text now hdate hnow (by decide)
      (fun _ => buildBase_ne_nil _ patient doctor date_str text now rfl (by decide))
  · exact C6_core _ patient doctor date_str ext text now hdate hnow (by decide)
      (fun _ => buildBase_ne_nil _ patient doctor date_str text now rfl (by decide))
  · exact C6_core _ patient doctor date_str ext text now hdate hnow (by decide)
      (fun _ => buildBase_ne_nil _ patient doctor date_str text now rfl (by decide))

/-- C6 witness: the theorem applied at a concrete classified input (the
empty text classifies as `その他`) with an extracted-format date. -/
theorem C6_witness :
    (buildBase (detect_category "") none none (some "20240102") "" "20240101").all okFn
      = true ∧
    (buildBase (detect_category "") none none (some "20240102") "" "20240101").length
      ≤ MAX_BASENAME ∧
    (build_filename (detect_category "") none none (some "20240102") ".pdf" "" "20240101").data
      = buildBase (detect_category "") none none (some "20240102") "" "20240101"
        ++ (".pdf" : String).data ∧
    (build_filename (detect_category "") none none (some "20240102") ".pdf" "" "20240101").length
      ≤ MAX_BASENAME + (".pdf" : String).length ∧
    (detect_category "" ≠ "治療報告書" →
      buildBase (detect_category "") none none (some "20240102") "" "20240101" ≠ []) :=
  C6_filename_safety "" none none (some "20240102") ".pdf" "" "20240101"
    (by intro d hd; cases hd; decide) (by decide)

end AIOCR
